import Mathlib

/-!
# Verification of the fatfs core (FAT manager and cluster chains)

Shallow embedding of the `fatfs` Go package: the block device is a function
from sector index and byte offset to byte value, the FAT manager operations
(`ReadFAT`, `WriteFAT`, `Alloc`, `FormatFS`) are translated from `fs.go`, and
the cluster-chain operations (`Seek`, `Extend`, `Truncate`, `Free`, `ReadFrom`,
`WriteTo`) are translated from the chain source file.  Machine integers are
modelled as `Nat` with explicit masks (`% 2^28`, `% 2^32`) where the Go code
masks `uint32` values.  Boot-sector accessors (`RsvdSecCnt`, `NumFATs`,
`TotSec32`, `FatSz32`, `SecPerClus`) are field reads of the parsed boot
sector; they are modelled as fields of a `Geom` record passed to every
operation.
-/

namespace FatFS

/-- Source `SectorSize` from the source: 512 bytes per sector. -/
def SectorSize : Nat := 512

/-- Source `const EOF = 0x0FFFFFF8` from the chain source file. -/
def EOF : Nat := 0x0FFFFFF8

/-- A block device: sector index → byte offset → byte value.
`ReadSector`/`WriteSector` of the `BlockDevice` interface become reads and
functional updates of this map. -/
def Device : Type := Nat → Nat → Nat

/-- The boot-sector geometry fields used by `FS` (accessors of `BootSector`). -/
structure Geom where
  rsvdSecCnt : Nat
  numFATs : Nat
  totSec32 : Nat
  fatSz32 : Nat
  secPerClus : Nat

/-- Truncation to a Go `uint32`. -/
def u32 (n : Nat) : Nat := n % 2 ^ 32

/-- Source `fs.fatSectors` as computed by `NewFS`:
`fatSectors[i] = RsvdSecCnt + i * FatSz32` for `i < NumFATs`. -/
def Geom.fatSectors (g : Geom) : List Nat :=
  (List.range g.numFATs).map (fun i => g.rsvdSecCnt + i * g.fatSz32)

/-- Source `fs.fatSectors[0]`, the primary FAT's first sector (equals `RsvdSecCnt`). -/
def Geom.primaryFAT (g : Geom) : Nat := g.rsvdSecCnt

/-- Source `FS.ClusterSize`: `SecPerClus * SectorSize` bytes. -/
def Geom.clusterSize (g : Geom) : Nat := g.secPerClus * SectorSize

/-- Source `FS.NumClusters`:
`2 + (TotSec32 - (FatSz32*NumFATs + RsvdSecCnt)) / SecPerClus`, all in `uint32`
arithmetic (subtraction wraps modulo `2^32` as in Go). -/
def Geom.numClusters (g : Geom) : Nat :=
  u32 (2 + u32 (g.totSec32 + 2 ^ 32 - u32 (u32 (g.fatSz32 * g.numFATs) + g.rsvdSecCnt)) /
    g.secPerClus)

/-- First sector of the data area (`clusterSector`'s `firstData`):
`RsvdSecCnt + NumFATs * FatSz32`. -/
def Geom.firstDataSector (g : Geom) : Nat := g.rsvdSecCnt + g.numFATs * g.fatSz32

/-- Source `Endian.Uint32`: little-endian load of 4 bytes at offset `o` of sector `s`. -/
def getLE32 (dev : Device) (s o : Nat) : Nat :=
  dev s o + 2 ^ 8 * dev s (o + 1) + 2 ^ 16 * dev s (o + 2) + 2 ^ 24 * dev s (o + 3)

/-- Source `Endian.PutUint32` followed by writing the sector back: update the 4 bytes
at offset `o` of sector `s` with the little-endian bytes of `v`. -/
def putLE32 (dev : Device) (s o v : Nat) : Device :=
  fun s2 o2 =>
    if s2 = s then
      if o2 = o then v % 2 ^ 8
      else if o2 = o + 1 then v / 2 ^ 8 % 2 ^ 8
      else if o2 = o + 2 then v / 2 ^ 16 % 2 ^ 8
      else if o2 = o + 3 then v / 2 ^ 24 % 2 ^ 8
      else dev s2 o2
    else dev s2 o2

/-- Source `WriteSector`: replace a whole sector. -/
def writeSector (dev : Device) (s : Nat) (sec : Nat → Nat) : Device :=
  fun s2 o2 => if s2 = s then sec o2 else dev s2 o2

/-- Source `fatIndices`: FAT-local sector `k / 128` and byte offset `(k % 128) * 4`. -/
def fatIndices (k : Nat) : Nat × Nat := (k / 128, k % 128 * 4)

/-- Source `FS.ReadFAT`: load 4 little-endian bytes of entry `k` from the primary FAT
and mask with `0x0fffffff` (`% 2^28`). -/
def readFAT (g : Geom) (dev : Device) (k : Nat) : Nat :=
  getLE32 dev (g.primaryFAT + (fatIndices k).1) (fatIndices k).2 % 2 ^ 28

/-- One iteration of `FS.WriteFAT`'s mirror loop: read the target sector of the
mirror at `sectorOffset`, combine `contents & 0x0fffffff` with
`oldContents & 0xf0000000` (for a `uint32` word `w` the masked high nibble is
`w / 2^28 % 16 * 2^28`), and write the sector back. -/
def writeFATmirror (dev : Device) (sectorOffset k v : Nat) : Device :=
  let s := (fatIndices k).1 + sectorOffset
  let o := (fatIndices k).2
  let oldContents := getLE32 dev s o
  let newContents := v % 2 ^ 28 + oldContents / 2 ^ 28 % 16 * 2 ^ 28
  putLE32 dev s o newContents

/-- Source `FS.WriteFAT`: perform the mirror update for each `sectorOffset` in
`fs.fatSectors`, in order. -/
def writeFAT (g : Geom) (dev : Device) (k v : Nat) : Device :=
  g.fatSectors.foldl (fun d off => writeFATmirror d off k v) dev

/-- The scan loop of `FS.Alloc`: for each FAT-local sector `i < FatSz32` and
each of its 128 entries `j`, skip `clusterIdx = j + i*128` outside
`[2, NumClusters)` and return the first index whose 28-bit content
(`Endian.Uint32` of the block's bytes, masked with `0x0fffffff`) is zero. -/
def allocFind (g : Geom) (dev : Device) : Option Nat :=
  (List.range g.fatSz32).findSome? fun i =>
    (List.range 128).findSome? fun j =>
      if j + i * 128 < 2 ∨ g.numClusters ≤ j + i * 128 then none
      else if getLE32 dev (g.primaryFAT + i) (j * 4) % 2 ^ 28 = 0 then some (j + i * 128)
      else none

/-- Source `FS.Alloc`: first free entry found by the scan, marked with `EOF` via
`WriteFAT` before returning; `none` models the no-free-clusters error (the Go
code returns before performing any write in that case). -/
def alloc (g : Geom) (dev : Device) : Option (Nat × Device) :=
  (allocFind g dev).map fun c => (c, writeFAT g dev c EOF)

/-! ## Failure-aware `WriteFAT` and `Alloc`

The block device may reject a sector write (`WriteSector` returning an error).
`wok lba` says whether writing sector `lba` succeeds.  `writeFATf` is the same
mirror loop as `FS.WriteFAT`, but it stops at the first rejected write and
surfaces the failure; the rejected sector keeps its prior contents. -/

/-- The mirror loop of `FS.WriteFAT` over the remaining list of mirror
offsets, with device write failures made explicit.  Returns the device after
the writes performed so far and whether all writes succeeded. -/
def writeFATfAux (wok : Nat → Bool) (k v : Nat) : List Nat → Device → Device × Bool
  | [], d => (d, true)
  | off :: rest, d =>
    if wok ((fatIndices k).1 + off) then
      writeFATfAux wok k v rest (writeFATmirror d off k v)
    else (d, false)

/-- Source `FS.WriteFAT` on a device that may reject sector writes. -/
def writeFATf (wok : Nat → Bool) (g : Geom) (dev : Device) (k v : Nat) : Device × Bool :=
  writeFATfAux wok k v g.fatSectors dev

/-- Result of `FS.Alloc` on a device that may reject sector writes: Go's
`Alloc` returns `clusterIdx, f.WriteFAT(clusterIdx, EOF)`, so a failed
`WriteFAT` yields the chosen cluster together with the error. -/
inductive AllocRes where
  | ok (cluster : Nat) (d : Device)
  | writeErr (cluster : Nat) (d : Device)
  | noFree


/-- Source `FS.Alloc` with device write failures made explicit. -/
def allocF (wok : Nat → Bool) (g : Geom) (dev : Device) : AllocRes :=
  match allocFind g dev with
  | some c =>
    match writeFATf wok g dev c EOF with
    | (d, true) => .ok c d
    | (d, false) => .writeErr c d
  | none => .noFree

/-! ## Formatting

`FormatFS` constructs a boot sector via `NewBootSector32` (whose code is not
part of the sources under verification; its output geometry is taken as a
parameter `g` and constrained by `SpecGeom` below, modelled from the spec),
zeroes the reserved and FAT sectors when `erase` is set, writes the boot
sector at sector 0 and the FS-info sector at sector 1, and seeds FAT entries
0, 1 and 2 with `EOF`. -/

/-- Update 4 bytes of a single 512-byte sector, little-endian
(`Endian.PutUint32`). -/
def secPutLE32 (sec : Nat → Nat) (o v : Nat) : Nat → Nat :=
  fun o2 =>
    if o2 = o then v % 2 ^ 8
    else if o2 = o + 1 then v / 2 ^ 8 % 2 ^ 8
    else if o2 = o + 2 then v / 2 ^ 16 % 2 ^ 8
    else if o2 = o + 3 then v / 2 ^ 24 % 2 ^ 8
    else sec o2

/-- Source `fsInfoSector`: all zero except the lead signature at bytes 0-3, the two
`0xffffffff` counters at 488-495, and the trailing signature at 508-511. -/
def fsInfoSector : Nat → Nat :=
  secPutLE32 (secPutLE32 (secPutLE32 (secPutLE32 (fun _ => 0) 0 0x41615252)
    488 0xffffffff) 492 0xffffffff) 508 0xAA550000

/-- The all-zero sector written by the erase loop (`var sec Sector`). -/
def zeroSector : Nat → Nat := fun _ => 0

/-- Source `FormatFS` with `erase` as a flag and the constructed boot sector's raw
bytes abstracted as `bootSec` (the claims under verification do not depend on
them).  The erase loop zeroes sectors `0 ..< RsvdSecCnt + 2*FatSz32`; then the
boot sector, the FS-info sector, and the three reserved FAT entries are
written.  `NewFS` in between only reads. -/
def formatFS (g : Geom) (bootSec : Nat → Nat) (dev : Device) (erase : Bool) : Device :=
  let d1 := if erase then
      (List.range (g.rsvdSecCnt + 2 * g.fatSz32)).foldl (fun d i => writeSector d i zeroSector) dev
    else dev
  let d2 := writeSector d1 0 bootSec
  let d3 := writeSector d2 1 fsInfoSector
  (List.range 3).foldl (fun d i => writeFAT g d i EOF) d3

/-- Modelled from the spec: constraints guaranteed for the geometry produced
by `NewBootSector32` (its source file is not part of the repository slice
under verification): `RsvdSecCnt = 32`, `NumFATs = 2`, at least one FAT
sector, a power-of-two (hence positive) `SecPerClus`, and a FAT large enough
that `FatSz32 * 128 ≥` data cluster count `+ 2 = NumClusters`. -/
def SpecGeom (g : Geom) : Prop :=
  g.rsvdSecCnt = 32 ∧ g.numFATs = 2 ∧ 1 ≤ g.fatSz32 ∧ 1 ≤ g.secPerClus ∧
    g.numClusters ≤ 128 * g.fatSz32

/-! ## Cluster chains -/

/-- The mutable state of a `Chain`: the current cluster and the back path
(`prev`) of clusters traversed from the start up to, but not including,
`cluster`. -/
structure Chain where
  cluster : Nat
  prev : List Nat
deriving DecidableEq

/-- Source `NewChain`. -/
def newChain (start : Nat) : Chain := ⟨start, []⟩

/-- Source `Chain.FirstCluster`: `prev[0]` when the back path is non-empty, otherwise
the current cluster. -/
def Chain.firstCluster (c : Chain) : Nat :=
  match c.prev with
  | [] => c.cluster
  | p :: _ => p

/-- Outcome of `Chain.Seek`: the returned offset, the before-start error, the
unknown-whence error, or the out-of-range slice access `c.prev[offset]` that
occurs when `Seek` is called with whence `Start` and a negative offset (a Go
runtime fault, not an error return). -/
inductive SeekRes where
  | ok (pos : Int)
  | beforeStart
  | badWhence
  | oob
deriving DecidableEq

/-- The forward loop of `Chain.Seek` with whence `Current` and a non-negative
offset: step `offset` times, stopping early when the FAT entry of the current
cluster is an end-of-chain marker (`next >= EOF`). -/
def seekForward (g : Geom) (dev : Device) : Chain → Nat → Chain
  | c, 0 => c
  | c, n + 1 =>
    let next := readFAT g dev c.cluster
    if EOF ≤ next then c
    else seekForward g dev ⟨next, c.prev ++ [c.cluster]⟩ n

/-- Source `Chain.Seek` with whence `io.SeekCurrent`.  A negative offset whose
magnitude exceeds `len(prev)` fails with the before-start error and leaves the
chain unchanged; otherwise the back path is truncated (negative offset) or the
forward loop runs (non-negative offset).  The returned position is
`len(prev)` of the resulting chain. -/
def seekCurrent (g : Geom) (dev : Device) (c : Chain) (offset : Int) : SeekRes × Chain :=
  if offset < 0 then
    if (c.prev.length : Int) < -offset then (.beforeStart, c)
    else
      let newPrevLen := ((c.prev.length : Int) + offset).toNat
      (.ok newPrevLen, ⟨c.prev.getD newPrevLen 0, c.prev.take newPrevLen⟩)
  else
    let c2 := seekForward g dev c offset.toNat
    (.ok c2.prev.length, c2)

/-- Source `Chain.Seek` with whence `io.SeekStart`.  When `len(prev) > offset` the Go
code indexes `c.prev[offset]`; for a negative offset that is an out-of-range
slice access (modelled as `.oob`).  When `offset` exceeds `len(prev)` the call
delegates to whence `Current` with `offset - len(prev)`. -/
def seekStart (g : Geom) (dev : Device) (c : Chain) (offset : Int) : SeekRes × Chain :=
  if offset < (c.prev.length : Int) then
    if offset < 0 then (.oob, c)
    else (.ok offset, ⟨c.prev.getD offset.toNat 0, c.prev.take offset.toNat⟩)
  else if offset = (c.prev.length : Int) then (.ok offset, c)
  else seekCurrent g dev c (offset - c.prev.length)

/-- Source `Chain.Seek`.  Whence values are `io.SeekStart = 0`, `io.SeekCurrent = 1`,
`io.SeekEnd = 2`; `SeekEnd` runs `Seek(1<<32, Current)` and then
`Seek(offset, Current)`; any other whence fails. -/
def seek (g : Geom) (dev : Device) (c : Chain) (offset : Int) (whence : Nat) : SeekRes × Chain :=
  if whence = 0 then seekStart g dev c offset
  else if whence = 1 then seekCurrent g dev c offset
  else if whence = 2 then
    let r1 := seekCurrent g dev c (2 ^ 32)
    match r1.1 with
    | .ok _ => seekCurrent g dev r1.2 offset
    | e => (e, r1.2)
  else (.badWhence, c)

/-- A sequence of `Seek` calls; `none` as soon as one of them does not return
an offset. -/
def runSeeks (g : Geom) (dev : Device) : List (Int × Nat) → Chain → Option Chain
  | [], c => some c
  | (off, wh) :: rest, c =>
    match seek g dev c off wh with
    | (.ok _, c2) => runSeeks g dev rest c2
    | _ => none

/-- Following FAT links from `s` for `n` steps. -/
def followFAT (g : Geom) (dev : Device) : Nat → Nat → Nat
  | s, 0 => s
  | s, n + 1 => followFAT g dev (readFAT g dev s) n

/-- Source `clusterSector`: first sector of the current cluster's data,
`firstData + (cluster - 2) * SecPerClus`. -/
def clusterSector (g : Geom) (cluster : Nat) : Nat :=
  g.firstDataSector + (cluster - 2) * g.secPerClus

/-- Source `Chain.ReadCluster`: the concatenation of the `SecPerClus` sectors of the
cluster; byte `t` of the result is byte `t % 512` of sector `t / 512`. -/
def readCluster (g : Geom) (dev : Device) (cluster : Nat) : List Nat :=
  (List.range g.clusterSize).map fun t =>
    dev (clusterSector g cluster + t / SectorSize) (t % SectorSize)

/-- The sector writes of `Chain.WriteCluster` (after its length check):
sector `i` of the cluster receives bytes `data[i*512 ..< (i+1)*512]`. -/
def writeClusterDev (g : Geom) (dev : Device) (cluster : Nat) (data : List Nat) : Device :=
  (List.range g.secPerClus).foldl
    (fun d i => writeSector d (clusterSector g cluster + i)
      (fun o => data.getD (i * SectorSize + o) 0)) dev

/-- Source `Chain.WriteCluster`: fails (the incorrect-cluster-size error) unless
`len(data) = ClusterSize`. -/
def writeCluster (g : Geom) (dev : Device) (cluster : Nat) (data : List Nat) : Option Device :=
  if data.length = g.clusterSize then some (writeClusterDev g dev cluster data) else none

/-- Source `Chain.Extend`: seek to the end, allocate a cluster, link the old end to
it, and move the cursor onto it.  `none` models the propagated allocation
failure.  (On the infallible device the `WriteFAT` rollback branch of the Go
code is unreachable and is not modelled.) -/
def extend (g : Geom) (st : Chain × Device) : Option (Chain × Device) :=
  match seek g st.2 st.1 0 2 with
  | (.ok _, c1) =>
    match alloc g st.2 with
    | some (cluster, d1) =>
      some (⟨cluster, c1.prev ++ [c1.cluster]⟩, writeFAT g d1 c1.cluster cluster)
    | none => none
  | _ => none

/-- Source `Chain.Truncate`: seek to the end, fail (the no-clusters-to-remove error) when the
back path is empty, otherwise write `EOF` into the last back-path entry, zero
the departing cluster's entry, and pop the back path. -/
def truncate (g : Geom) (st : Chain × Device) : Option (Chain × Device) :=
  match seek g st.2 st.1 0 2 with
  | (.ok _, c1) =>
    match c1.prev.getLast? with
    | none => none
    | some previous =>
      some (⟨previous, c1.prev.dropLast⟩, writeFAT g (writeFAT g st.2 previous EOF) c1.cluster 0)
  | _ => none

/-- The loop of `Chain.Free`: while the current cluster is below `EOF`, read
its FAT entry, zero the entry, and advance to the read successor.  The Go loop
has no bound; `fuel` makes the recursion total and `none` marks exhaustion. -/
def freeLoop (g : Geom) (dev : Device) (cluster : Nat) : Nat → Option Device
  | 0 => none
  | fuel + 1 =>
    if cluster < EOF then
      freeLoop g (writeFAT g dev cluster 0) (readFAT g dev cluster) fuel
    else some dev

/-- Source `Chain.Free`: seek to the start, then run the zeroing loop. -/
def free (g : Geom) (st : Chain × Device) (fuel : Nat) : Option Device :=
  match seek g st.2 st.1 0 0 with
  | (.ok _, c1) => freeLoop g st.2 c1.cluster fuel
  | _ => none

/-- The loop of `Chain.ReadFrom`.  Each iteration reads up to `ClusterSize`
bytes from the remaining input `r` into a zeroed buffer (`io.ReadFull` into
`make([]byte, ClusterSize)`), stops on a clean end of input (`io.EOF`, zero
bytes read), extends the chain when a previous iteration already wrote the
current end, writes the buffer as the current cluster, and stops after a
partial read (`io.ErrUnexpectedEOF`).  Returns the total bytes consumed; Go's
loop is unbounded, so `fuel` bounds the recursion and errors abandon the
count. -/
def readFromLoop (g : Geom) (st : Chain × Device) (r : List Nat) (needsExtend : Bool) :
    Nat → Option (Nat × Chain × Device)
  | 0 => none
  | fuel + 1 =>
    let m := min g.clusterSize r.length
    if m = 0 then some (0, st)
    else
      let buffer := r.take m ++ List.replicate (g.clusterSize - m) 0
      match if needsExtend then extend g st else some st with
      | none => none
      | some st1 =>
        match writeCluster g st1.2 st1.1.cluster buffer with
        | none => none
        | some d2 =>
          if m < g.clusterSize then some (m, st1.1, d2)
          else
            match readFromLoop g (st1.1, d2) (r.drop m) true fuel with
            | some (n, stf) => some (m + n, stf)
            | none => none

/-- Source `Chain.ReadFrom`: seek to the end, then run the read loop with
`needsExtend` initially false. -/
def readFrom (g : Geom) (st : Chain × Device) (r : List Nat) (fuel : Nat) :
    Option (Nat × Chain × Device) :=
  match seek g st.2 st.1 0 2 with
  | (.ok _, c1) => readFromLoop g (c1, st.2) r false fuel
  | _ => none

/-- The loop of `Chain.WriteTo`: read the current cluster, append it to the
writer's output, advance by one; stop when the position did not change.
`offset` is the loop counter of the Go code; `fuel` bounds the unbounded Go
loop. -/
def writeToLoop (g : Geom) (dev : Device) (c : Chain) (offset : Int) (acc : List Nat) :
    Nat → Option (List Nat × Chain)
  | 0 => none
  | fuel + 1 =>
    let acc2 := acc ++ readCluster g dev c.cluster
    match seek g dev c 1 1 with
    | (.ok newOffset, c2) =>
      if newOffset = offset then some (acc2, c2)
      else writeToLoop g dev c2 (offset + 1) acc2 fuel
    | _ => none

/-- Source `Chain.WriteTo`: seek to the start, then write every cluster in order; the
writer is modelled as the accumulated list of bytes. -/
def writeTo (g : Geom) (dev : Device) (c : Chain) (fuel : Nat) : Option (List Nat × Chain) :=
  match seek g dev c 0 0 with
  | (.ok _, c1) => writeToLoop g dev c1 0 [] fuel
  | _ => none

/-! ## Derived getters and well-formedness predicates -/

/-- The absolute sector holding FAT entry `k` in mirror `i`
(the sector written by `writeFATmirror` with `sectorOffset = fatSectors[i]`). -/
def mirrorSec (g : Geom) (i k : Nat) : Nat :=
  (fatIndices k).1 + (g.rsvdSecCnt + i * g.fatSz32)

/-- The 32-bit on-disk word of FAT entry `k` in mirror `i`. -/
def entryWord (g : Geom) (dev : Device) (i k : Nat) : Nat :=
  getLE32 dev (mirrorSec g i k) (fatIndices k).2

/-- All FAT mirrors are byte-identical to the primary FAT. -/
def MirrorsEq (g : Geom) (dev : Device) : Prop :=
  ∀ i < g.numFATs, ∀ t < g.fatSz32, ∀ o < SectorSize,
    dev (t + (g.rsvdSecCnt + i * g.fatSz32)) o = dev (t + g.rsvdSecCnt) o

/-- Well-formed geometry: at least one sector per cluster, at least one FAT
mirror, and a FAT large enough to hold an entry per cluster, with cluster
indices below the end-of-chain markers. -/
def GWF (g : Geom) : Prop :=
  1 ≤ g.secPerClus ∧ 1 ≤ g.numFATs ∧ g.numClusters ≤ 128 * g.fatSz32 ∧
    g.numClusters ≤ EOF

/-- A chain cursor together with the cluster list `Q` it stands for: `Q` is
the back path followed by the current cluster, consecutive members are linked
through the FAT, the current cluster is the end of the chain, every member is
a valid data cluster, and no cluster repeats. -/
def ChainState (g : Geom) (c : Chain) (dev : Device) (Q : List Nat) : Prop :=
  Q = c.prev ++ [c.cluster] ∧
  (∀ i, i + 1 < Q.length → readFAT g dev (Q.getD i 0) = Q.getD (i + 1) 0) ∧
  EOF ≤ readFAT g dev c.cluster ∧
  (∀ q ∈ Q, 2 ≤ q ∧ q < g.numClusters) ∧
  Q.Nodup

/-- The cursor invariant: `followFAT` from `s` for `i` steps lands on the
`i`-th member of the chain path `prev ++ [cluster]`. -/
def SeekInv (g : Geom) (dev : Device) (s : Nat) (c : Chain) : Prop :=
  ∀ i ≤ c.prev.length, followFAT g dev s i = (c.prev ++ [c.cluster]).getD i 0

/-! ## Concrete fixtures for witnesses and counterexamples -/

/-- A small geometry with two FAT mirrors: 1 reserved sector, 2 FATs of one
sector each, 1 sector per cluster, 16 total sectors (so 15 clusters). -/
def gTwo : Geom := ⟨1, 2, 16, 1, 1⟩

/-- A small geometry with a single FAT mirror: 1 reserved sector, 1 FAT
sector, 1 sector per cluster, 8 total sectors (so 8 clusters). -/
def gOne : Geom := ⟨1, 1, 8, 1, 1⟩

/-- An all-zero device. -/
def devZero : Device := fun _ _ => 0

/-- The geometry of the spec's 1 MiB scenario: 32 reserved sectors, 2 FATs of
16 sectors, 1 sector per cluster, 2048 total sectors. -/
def gFmt : Geom := ⟨32, 2, 2048, 16, 1⟩

/-- A device for `gOne` whose FAT marks cluster 2 with the exact `EOF`
constant and leaves every other entry free; the data area is all zeroes. -/
def devEnd2 : Device := fun s o =>
  if s = 1 then
    if o = 8 then 0xF8 else if o = 9 then 0xFF else if o = 10 then 0xFF
    else if o = 11 then 0x0F else 0
  else 0

/-- A device for `gOne` whose FAT links cluster 2 to cluster 3 and marks
cluster 3 with the non-canonical end marker `0x0FFFFFFF`; clusters 4 and up
are free. -/
def devOdd3 : Device := fun s o =>
  if s = 1 then
    if o = 8 then 3
    else if o = 12 then 0xFF else if o = 13 then 0xFF else if o = 14 then 0xFF
    else if o = 15 then 0x0F else 0
  else 0

/-- A device for `gTwo` whose FAT (in both mirrors) marks cluster 2 with the
exact `EOF` constant and leaves every other entry free. -/
def devEnd2Two : Device := fun s o =>
  if s = 1 ∨ s = 2 then
    if o = 8 then 0xF8 else if o = 9 then 0xFF else if o = 10 then 0xFF
    else if o = 11 then 0x0F else 0
  else 0

/-- A device for `gOne` whose FAT links clusters 5 → 6 → 7 and ends the chain
at 7 with the exact `EOF` constant; clusters 2, 3 and 4 are free. -/
def devChain567 : Device := fun s o =>
  if s = 1 then
    if o = 20 then 6
    else if o = 24 then 7
    else if o = 28 then 0xF8 else if o = 29 then 0xFF else if o = 30 then 0xFF
    else if o = 31 then 0x0F else 0
  else 0

/-- Write acceptance for `gTwo` that rejects writes to the second FAT mirror
(sector 2) and accepts everything else. -/
def wokNoMirror : Nat → Bool := fun s => decide (s ≠ 2)

/-- Write acceptance for `gTwo` that rejects writes to the primary FAT
(sector 1) and accepts everything else. -/
def wokNoPrimary : Nat → Bool := fun s => decide (s ≠ 1)

/-- Byte `j` (little-endian, `j ≤ 3`) of a 32-bit word. -/
def wordByte (w j : Nat) : Nat := w / 2 ^ (8 * j) % 2 ^ 8

/-! ## Byte-level lemmas about `putLE32` and `getLE32` -/

lemma putLE32_frame (d : Device) (s o v s2 o2 : Nat)
    (h : s2 ≠ s ∨ o2 < o ∨ o + 3 < o2) : putLE32 d s o v s2 o2 = d s2 o2 := by
  unfold putLE32
  split_ifs <;> first | rfl | (exfalso; omega)

lemma putLE32_byte0 (d : Device) (s o v : Nat) : putLE32 d s o v s o = v % 2 ^ 8 := by
  unfold putLE32; simp

lemma putLE32_byte1 (d : Device) (s o v : Nat) :
    putLE32 d s o v s (o + 1) = v / 2 ^ 8 % 2 ^ 8 := by
  unfold putLE32; split_ifs <;> first | rfl | (exfalso; omega)

lemma putLE32_byte2 (d : Device) (s o v : Nat) :
    putLE32 d s o v s (o + 2) = v / 2 ^ 16 % 2 ^ 8 := by
  unfold putLE32; split_ifs <;> first | rfl | (exfalso; omega)

lemma putLE32_byte3 (d : Device) (s o v : Nat) :
    putLE32 d s o v s (o + 3) = v / 2 ^ 24 % 2 ^ 8 := by
  unfold putLE32; split_ifs <;> first | rfl | (exfalso; omega)

lemma getLE32_putLE32 (d : Device) (s o v : Nat) :
    getLE32 (putLE32 d s o v) s o = v % 2 ^ 32 := by
  unfold getLE32
  rw [putLE32_byte0, putLE32_byte1, putLE32_byte2, putLE32_byte3]
  omega

lemma getLE32_congr (d d' : Device) (s o : Nat)
    (h : ∀ j ≤ 3, d' s (o + j) = d s (o + j)) : getLE32 d' s o = getLE32 d s o := by
  unfold getLE32
  have h0 := h 0 (by omega)
  have h1 := h 1 (by omega)
  have h2 := h 2 (by omega)
  have h3 := h 3 (by omega)
  simp only [Nat.add_zero] at h0
  rw [h0, h1, h2, h3]

lemma getLE32_lt (d : Device) (s o : Nat) (hB : ∀ x y, d x y < 256) :
    getLE32 d s o < 2 ^ 32 := by
  unfold getLE32
  have h0 := hB s o
  have h1 := hB s (o + 1)
  have h2 := hB s (o + 2)
  have h3 := hB s (o + 3)
  omega

/-! ## Characterization of `writeFAT` -/

lemma writeFATmirror_eq (d : Device) (off k v : Nat) :
    writeFATmirror d off k v =
      putLE32 d ((fatIndices k).1 + off) (fatIndices k).2
        (v % 2 ^ 28 + getLE32 d ((fatIndices k).1 + off) (fatIndices k).2 / 2 ^ 28 % 16 * 2 ^ 28) :=
  rfl

lemma writeFATmirror_frame (d : Device) (off k v s o : Nat)
    (h : s ≠ (fatIndices k).1 + off ∨ o < (fatIndices k).2 ∨ (fatIndices k).2 + 3 < o) :
    writeFATmirror d off k v s o = d s o := by
  rw [writeFATmirror_eq]
  exact putLE32_frame _ _ _ _ _ _ h

lemma newWord_lt (v W : Nat) : v % 2 ^ 28 + W / 2 ^ 28 % 16 * 2 ^ 28 < 2 ^ 32 := by
  omega

lemma getLE32_writeFATmirror_self (d : Device) (off k v : Nat) :
    getLE32 (writeFATmirror d off k v) ((fatIndices k).1 + off) (fatIndices k).2 =
      v % 2 ^ 28 + getLE32 d ((fatIndices k).1 + off) (fatIndices k).2 / 2 ^ 28 % 16 * 2 ^ 28 := by
  rw [writeFATmirror_eq, getLE32_putLE32]
  exact Nat.mod_eq_of_lt (newWord_lt _ _)

lemma foldl_writeFATmirror_frame (k v : Nat) (offs : List Nat) :
    ∀ (d : Device) (s o : Nat),
      (∀ off ∈ offs, s ≠ (fatIndices k).1 + off ∨ o < (fatIndices k).2 ∨ (fatIndices k).2 + 3 < o) →
      (offs.foldl (fun d' off => writeFATmirror d' off k v) d) s o = d s o := by
  induction offs with
  | nil => intro d s o _; rfl
  | cons off rest ih =>
    intro d s o h
    rw [List.foldl_cons, ih _ _ _ (fun x hx => h x (List.mem_cons_of_mem _ hx))]
    exact writeFATmirror_frame _ _ _ _ _ _ (h off (List.mem_cons_self _ _))

lemma putLE32_window (d : Device) (s o v o2 : Nat) (h1 : o ≤ o2) (h2 : o2 ≤ o + 3) :
    putLE32 d s o v s o2 = wordByte v (o2 - o) := by
  have : o2 = o ∨ o2 = o + 1 ∨ o2 = o + 2 ∨ o2 = o + 3 := by omega
  rcases this with h | h | h | h <;> subst h
  · rw [putLE32_byte0]; unfold wordByte; norm_num
  · rw [putLE32_byte1]; unfold wordByte; norm_num
  · rw [putLE32_byte2]; unfold wordByte; norm_num
  · rw [putLE32_byte3]; unfold wordByte; norm_num

lemma low28_writeFATmirror (d : Device) (off k v : Nat) (s : Nat)
    (h : getLE32 d s (fatIndices k).2 % 2 ^ 28 = v % 2 ^ 28) :
    getLE32 (writeFATmirror d off k v) s (fatIndices k).2 % 2 ^ 28 = v % 2 ^ 28 := by
  by_cases hs : s = (fatIndices k).1 + off
  · subst hs
    rw [getLE32_writeFATmirror_self]
    omega
  · have hcg := getLE32_congr d (writeFATmirror d off k v) s (fatIndices k).2
      (fun j _ => writeFATmirror_frame _ _ _ _ _ _ (Or.inl hs))
    rw [hcg]
    exact h

lemma low28_foldl (k v : Nat) (offs : List Nat) :
    ∀ (d : Device) (s : Nat), getLE32 d s (fatIndices k).2 % 2 ^ 28 = v % 2 ^ 28 →
      getLE32 (offs.foldl (fun d' off => writeFATmirror d' off k v) d) s (fatIndices k).2 % 2 ^ 28 =
        v % 2 ^ 28 := by
  induction offs with
  | nil => intro d s h; exact h
  | cons off rest ih =>
    intro d s h
    rw [List.foldl_cons]
    exact ih _ _ (low28_writeFATmirror _ _ _ _ _ h)

lemma fatSectors_head (g : Geom) (hn : 1 ≤ g.numFATs) :
    ∃ tl, g.fatSectors = g.rsvdSecCnt :: tl := by
  obtain ⟨m, hm⟩ : ∃ m, g.numFATs = m + 1 := ⟨g.numFATs - 1, by omega⟩
  refine ⟨((List.range m).map Nat.succ).map fun i => g.rsvdSecCnt + i * g.fatSz32, ?_⟩
  unfold Geom.fatSectors
  rw [hm, List.range_succ_eq_map, List.map_cons]
  simp

/-- The low 28 bits of the on-disk entry read back by `ReadFAT` after
`WriteFAT` are exactly the low 28 bits that were written (C2's core). -/
lemma readFAT_writeFAT_self (g : Geom) (dev : Device) (k v : Nat) (hn : 1 ≤ g.numFATs) :
    readFAT g (writeFAT g dev k v) k = v % 2 ^ 28 := by
  obtain ⟨tl, htl⟩ := fatSectors_head g hn
  unfold readFAT writeFAT
  rw [htl, List.foldl_cons]
  have hsec : g.primaryFAT + (fatIndices k).1 = (fatIndices k).1 + g.rsvdSecCnt := by
    unfold Geom.primaryFAT; omega
  rw [hsec]
  apply low28_foldl
  rw [getLE32_writeFATmirror_self]
  omega

lemma sector_decomp_inj (f b b' i j : Nat) (hb : b < f) (hb' : b' < f)
    (h : b + i * f = b' + j * f) : b = b' ∧ i = j := by
  have hf : 0 < f := by omega
  have hi : (b + i * f) / f = i := by
    rw [Nat.add_mul_div_right _ _ hf, Nat.div_eq_of_lt hb, Nat.zero_add]
  have hj : (b' + j * f) / f = j := by
    rw [Nat.add_mul_div_right _ _ hf, Nat.div_eq_of_lt hb', Nat.zero_add]
  have hij : i = j := by rw [← hi, ← hj, h]
  subst hij
  exact ⟨Nat.add_right_cancel h, rfl⟩

lemma mirrorSec_inj (g : Geom) (k k' i j : Nat) (hk : (fatIndices k).1 < g.fatSz32)
    (hk' : (fatIndices k').1 < g.fatSz32) (h : mirrorSec g i k = mirrorSec g j k') :
    (fatIndices k).1 = (fatIndices k').1 ∧ i = j := by
  unfold mirrorSec at h
  have h2 : (fatIndices k).1 + i * g.fatSz32 = (fatIndices k').1 + j * g.fatSz32 := by
    set x := i * g.fatSz32 with hx
    set y := j * g.fatSz32 with hy
    omega
  exact sector_decomp_inj _ _ _ _ _ hk hk' h2

lemma foldl_writeFATmirror_target_byte (k v : Nat) :
    ∀ (offs : List Nat) (d : Device) (off : Nat), off ∈ offs →
      ((offs.map fun x => (fatIndices k).1 + x).Nodup) →
      ∀ o, (fatIndices k).2 ≤ o → o ≤ (fatIndices k).2 + 3 →
      (offs.foldl (fun d' x => writeFATmirror d' x k v) d) ((fatIndices k).1 + off) o =
        wordByte
          (v % 2 ^ 28 + getLE32 d ((fatIndices k).1 + off) (fatIndices k).2 / 2 ^ 28 % 16 * 2 ^ 28)
          (o - (fatIndices k).2) := by
  intro offs
  induction offs with
  | nil => intro d off hmem; exact absurd hmem (List.not_mem_nil _)
  | cons x rest ih =>
    intro d off hmem hnodup o ho1 ho2
    rw [List.map_cons, List.nodup_cons] at hnodup
    rw [List.foldl_cons]
    rcases List.mem_cons.mp hmem with hx | hx
    · subst hx
      rw [foldl_writeFATmirror_frame]
      · rw [writeFATmirror_eq, putLE32_window _ _ _ _ _ ho1 ho2]
      · intro off' hoff'
        left
        intro hcontra
        exact hnodup.1 (hcontra ▸ List.mem_map_of_mem _ hoff')
    · have hsec : (fatIndices k).1 + off ≠ (fatIndices k).1 + x := by
        intro hcontra
        exact hnodup.1 (hcontra ▸ List.mem_map_of_mem _ hx)
      rw [ih _ _ hx hnodup.2 o ho1 ho2]
      have hword : getLE32 (writeFATmirror d x k v) ((fatIndices k).1 + off) (fatIndices k).2 =
          getLE32 d ((fatIndices k).1 + off) (fatIndices k).2 :=
        getLE32_congr _ _ _ _ (fun j _ => writeFATmirror_frame _ _ _ _ _ _ (Or.inl hsec))
      rw [hword]

lemma fatSectors_mem (g : Geom) (off : Nat) :
    off ∈ g.fatSectors ↔ ∃ i < g.numFATs, off = g.rsvdSecCnt + i * g.fatSz32 := by
  unfold Geom.fatSectors
  simp only [List.mem_map, List.mem_range]
  constructor
  · rintro ⟨i, hi, rfl⟩; exact ⟨i, hi, rfl⟩
  · rintro ⟨i, hi, rfl⟩; exact ⟨i, hi, rfl⟩

lemma fatSectors_sec_nodup (g : Geom) (k : Nat) (hf : 1 ≤ g.fatSz32) :
    ((g.fatSectors.map fun x => (fatIndices k).1 + x)).Nodup := by
  unfold Geom.fatSectors
  rw [List.map_map]
  refine List.Nodup.map_on ?_ (List.nodup_range _)
  intro i _ j _ hij
  simp only [Function.comp_apply] at hij
  have h2 : i * g.fatSz32 = j * g.fatSz32 := by
    set x := i * g.fatSz32 with hx
    set y := j * g.fatSz32 with hy
    omega
  exact Nat.eq_of_mul_eq_mul_right (by omega) h2

/-- Per-mirror effect of `WriteFAT` on the written entry's bytes: in every
mirror, byte `o` of entry `k`'s window holds the corresponding byte of
`(v & 0x0fffffff) | (old & 0xf0000000)` computed from that mirror's old
word. -/
lemma writeFAT_byte_self (g : Geom) (dev : Device) (k v i : Nat) (hi : i < g.numFATs)
    (hk : (fatIndices k).1 < g.fatSz32) (o : Nat) (ho1 : (fatIndices k).2 ≤ o)
    (ho2 : o ≤ (fatIndices k).2 + 3) :
    writeFAT g dev k v (mirrorSec g i k) o =
      wordByte (v % 2 ^ 28 + entryWord g dev i k / 2 ^ 28 % 16 * 2 ^ 28)
        (o - (fatIndices k).2) := by
  unfold writeFAT entryWord
  have hmem : g.rsvdSecCnt + i * g.fatSz32 ∈ g.fatSectors :=
    (fatSectors_mem g _).mpr ⟨i, hi, rfl⟩
  have hsec : mirrorSec g i k = (fatIndices k).1 + (g.rsvdSecCnt + i * g.fatSz32) := rfl
  rw [hsec]
  exact foldl_writeFATmirror_target_byte k v _ dev _ hmem (fatSectors_sec_nodup g k (by omega))
    o ho1 ho2

/-- Per-mirror effect of `WriteFAT` on the written entry's 32-bit word. -/
lemma writeFAT_entryWord_self (g : Geom) (dev : Device) (k v i : Nat) (hi : i < g.numFATs)
    (hk : (fatIndices k).1 < g.fatSz32) :
    entryWord g (writeFAT g dev k v) i k =
      v % 2 ^ 28 + entryWord g dev i k / 2 ^ 28 % 16 * 2 ^ 28 := by
  unfold entryWord
  have hb := fun o ho1 ho2 => writeFAT_byte_self g dev k v i hi hk o ho1 ho2
  unfold getLE32
  rw [hb _ (le_refl _) (by omega), hb _ (by omega) (by omega), hb _ (by omega) (by omega),
    hb _ (by omega) (by omega)]
  have harith : ∀ w : Nat, w < 2 ^ 32 →
      wordByte w 0 + 2 ^ 8 * wordByte w 1 + 2 ^ 16 * wordByte w 2 + 2 ^ 24 * wordByte w 3 = w := by
    intro w hw
    unfold wordByte
    norm_num
    omega
  have hws : ∀ j : Nat, (fatIndices k).2 + j - (fatIndices k).2 = j := by omega
  rw [Nat.sub_self, hws 1, hws 2, hws 3]
  exact harith _ (newWord_lt _ _)

/-- Bytes outside the written entry's windows (one window per mirror) are
untouched by `WriteFAT`. -/
lemma writeFAT_frame (g : Geom) (dev : Device) (k v s o : Nat)
    (h : ∀ i < g.numFATs, s ≠ mirrorSec g i k ∨ o < (fatIndices k).2 ∨ (fatIndices k).2 + 3 < o) :
    writeFAT g dev k v s o = dev s o := by
  unfold writeFAT
  apply foldl_writeFATmirror_frame
  intro off hoff
  obtain ⟨i, hi, rfl⟩ := (fatSectors_mem g off).mp hoff
  exact h i hi

lemma entryWord_mirrors_eq (g : Geom) (dev : Device) (k i : Nat) (hmir : MirrorsEq g dev)
    (hi : i < g.numFATs) (hk : (fatIndices k).1 < g.fatSz32) :
    entryWord g dev i k = entryWord g dev 0 k := by
  have hbase : (fatIndices k).2 + 3 < SectorSize := by
    unfold fatIndices SectorSize; omega
  have h0 : ∀ o < SectorSize,
      dev ((fatIndices k).1 + (g.rsvdSecCnt + i * g.fatSz32)) o =
        dev ((fatIndices k).1 + g.rsvdSecCnt) o :=
    fun o ho => hmir i hi (fatIndices k).1 hk o ho
  unfold entryWord mirrorSec getLE32
  rw [h0 _ (by omega), h0 _ (by omega), h0 _ (by omega), h0 _ (by omega)]
  have e0 : (fatIndices k).1 + g.rsvdSecCnt = (fatIndices k).1 + (g.rsvdSecCnt + 0 * g.fatSz32) := by
    omega
  rw [e0]

lemma readFAT_eq_entryWord (g : Geom) (dev : Device) (k : Nat) :
    readFAT g dev k = entryWord g dev 0 k % 2 ^ 28 := by
  unfold readFAT entryWord mirrorSec Geom.primaryFAT
  have e : g.rsvdSecCnt + (fatIndices k).1 = (fatIndices k).1 + (g.rsvdSecCnt + 0 * g.fatSz32) := by
    omega
  rw [e]

/-- An entry different from the written one keeps its on-disk word in every
mirror. -/
lemma writeFAT_entryWord_other (g : Geom) (dev : Device) (k k' v : Nat) (hne : k ≠ k')
    (hk : (fatIndices k).1 < g.fatSz32) (hk' : (fatIndices k').1 < g.fatSz32)
    (i : Nat) (hi : i < g.numFATs) :
    entryWord g (writeFAT g dev k v) i k' = entryWord g dev i k' := by
  unfold entryWord
  apply getLE32_congr
  intro j hj
  apply writeFAT_frame
  intro j' hj'
  by_cases hsec : mirrorSec g i k' = mirrorSec g j' k
  · obtain ⟨hdiv, hij⟩ := mirrorSec_inj g k' k i j' hk' hk hsec
    right
    have hkk : ¬(k / 128 = k' / 128 ∧ k % 128 = k' % 128) := by
      intro ⟨h1, h2⟩; exact hne (by omega)
    unfold fatIndices at hdiv ⊢
    simp only at hdiv ⊢
    omega
  · left
    exact hsec

/-- The mirror update of `WriteFAT` keeps byte-identical mirrors
byte-identical. -/
lemma writeFAT_mirrorsEq (g : Geom) (dev : Device) (k v : Nat) (hmir : MirrorsEq g dev)
    (hk : (fatIndices k).1 < g.fatSz32) : MirrorsEq g (writeFAT g dev k v) := by
  intro i hi t ht o ho
  by_cases hwin : (fatIndices k).2 ≤ o ∧ o ≤ (fatIndices k).2 + 3
  · by_cases ht' : t = (fatIndices k).1
    · subst ht'
      have e0 : (fatIndices k).1 + g.rsvdSecCnt = mirrorSec g 0 k := by
        unfold mirrorSec; omega
      have ei : (fatIndices k).1 + (g.rsvdSecCnt + i * g.fatSz32) = mirrorSec g i k := rfl
      rw [ei, e0, writeFAT_byte_self g dev k v i hi hk o hwin.1 hwin.2,
        writeFAT_byte_self g dev k v 0 (by omega) hk o hwin.1 hwin.2,
        entryWord_mirrors_eq g dev k i hmir hi hk]
    · have hfr1 : writeFAT g dev k v (t + (g.rsvdSecCnt + i * g.fatSz32)) o =
          dev (t + (g.rsvdSecCnt + i * g.fatSz32)) o := by
        apply writeFAT_frame
        intro j _
        left
        intro hcontra
        unfold mirrorSec at hcontra
        have h2 : t + i * g.fatSz32 = (fatIndices k).1 + j * g.fatSz32 := by
          set x := i * g.fatSz32 with hxd
          set y := j * g.fatSz32 with hyd
          omega
        exact ht' (sector_decomp_inj _ _ _ _ _ ht hk h2).1
      have hfr0 : writeFAT g dev k v (t + g.rsvdSecCnt) o = dev (t + g.rsvdSecCnt) o := by
        apply writeFAT_frame
        intro j _
        left
        intro hcontra
        unfold mirrorSec at hcontra
        have h2 : t + 0 * g.fatSz32 = (fatIndices k).1 + j * g.fatSz32 := by
          set y := j * g.fatSz32 with hyd
          omega
        exact ht' (sector_decomp_inj _ _ _ _ _ ht hk h2).1
      rw [hfr1, hfr0]
      exact hmir i hi t ht o ho
  · rw [writeFAT_frame g dev k v (t + (g.rsvdSecCnt + i * g.fatSz32)) o
        (fun j _ => Or.inr (by omega)),
      writeFAT_frame g dev k v (t + g.rsvdSecCnt) o (fun j _ => Or.inr (by omega))]
    exact hmir i hi t ht o ho

lemma writeFATmirror_mask (d : Device) (off k v : Nat) :
    writeFATmirror d off k v = writeFATmirror d off k (v % 2 ^ 28) := by
  rw [writeFATmirror_eq, writeFATmirror_eq]
  exact congrArg (putLE32 d ((fatIndices k).1 + off) (fatIndices k).2) (by omega)

lemma writeFAT_mask (g : Geom) (dev : Device) (k v : Nat) :
    writeFAT g dev k v = writeFAT g dev k (v % 2 ^ 28) := by
  unfold writeFAT
  congr 1
  funext d' off
  exact writeFATmirror_mask d' off k v

lemma readFAT_writeFAT_other (g : Geom) (dev : Device) (k k' v : Nat) (hn : 1 ≤ g.numFATs)
    (hne : k ≠ k') (hk : (fatIndices k).1 < g.fatSz32) (hk' : (fatIndices k').1 < g.fatSz32) :
    readFAT g (writeFAT g dev k v) k' = readFAT g dev k' := by
  rw [readFAT_eq_entryWord, readFAT_eq_entryWord,
    writeFAT_entryWord_other g dev k k' v hne hk hk' 0 (by omega)]

/-- C2.  For every FAT index `k` and every value `v`, after a successful
`WriteFAT(k, v)`, `ReadFAT(k)` — which reads only the primary FAT — returns
`v & 0x0FFFFFFF`; the high 4 bits of `v` are never stored (writing `v` is the
same device operation as writing `v & 0x0FFFFFFF`). -/
theorem C2_writeFAT_readFAT (g : Geom) (dev : Device) (k v : Nat) (hn : 1 ≤ g.numFATs) :
    readFAT g (writeFAT g dev k v) k = v % 2 ^ 28 ∧
      writeFAT g dev k v = writeFAT g dev k (v % 2 ^ 28) :=
  ⟨readFAT_writeFAT_self g dev k v hn, writeFAT_mask g dev k v⟩

/-- Witness for C2 on a concrete two-mirror device. -/
theorem C2_witness :
    readFAT gTwo (writeFAT gTwo devZero 5 0x12345678) 5 = 0x02345678 := by
  rw [(C2_writeFAT_readFAT gTwo devZero 5 0x12345678 (by decide)).1]
  norm_num

/-- C3.  On a device whose FAT mirrors are byte-identical, a successful
`WriteFAT(k, v)` leaves the high 4 bits of entry `k`'s on-disk word unchanged
in every mirror, sets its low 28 bits to `v & 0x0FFFFFFF` in every mirror,
leaves every byte outside the entry's windows unchanged (in particular every
other byte of the FAT region), and leaves all mirrors byte-identical. -/
theorem C3_writeFAT_frame_effect (g : Geom) (dev : Device) (k v : Nat)
    (hB : ∀ s o, dev s o < 256) (hmir : MirrorsEq g dev)
    (hk : (fatIndices k).1 < g.fatSz32) :
    (∀ i < g.numFATs,
      entryWord g (writeFAT g dev k v) i k / 2 ^ 28 = entryWord g dev i k / 2 ^ 28 ∧
      entryWord g (writeFAT g dev k v) i k % 2 ^ 28 = v % 2 ^ 28) ∧
    (∀ s o, (∀ i < g.numFATs,
        s ≠ mirrorSec g i k ∨ o < (fatIndices k).2 ∨ (fatIndices k).2 + 3 < o) →
      writeFAT g dev k v s o = dev s o) ∧
    MirrorsEq g (writeFAT g dev k v) := by
  refine ⟨?_, fun s o h => writeFAT_frame g dev k v s o h, writeFAT_mirrorsEq g dev k v hmir hk⟩
  intro i hi
  rw [writeFAT_entryWord_self g dev k v i hi hk]
  have hlt : entryWord g dev i k < 2 ^ 32 := getLE32_lt dev _ _ hB
  constructor
  · omega
  · omega

/-- Witness for C3 on a concrete two-mirror device. -/
theorem C3_witness :
    entryWord gTwo (writeFAT gTwo devZero 5 0x12345678) 1 5 % 2 ^ 28 = 0x02345678 := by
  rw [((C3_writeFAT_frame_effect gTwo devZero 5 0x12345678
    (fun _ _ => by show (0 : Nat) < 256; decide)
    (fun i _ t _ o _ => rfl) (by decide)).1 1 (by decide)).2]
  norm_num

/-! ## First-fit characterization of `Alloc` -/

lemma range_findSome?_first {β : Type} :
    ∀ (n : Nat) (f : Nat → Option β) (b : β), (List.range n).findSome? f = some b →
      ∃ i, i < n ∧ f i = some b ∧ ∀ j < i, f j = none := by
  intro n
  induction n with
  | zero => intro f b h; simp [List.range_zero, List.findSome?_nil] at h
  | succ m ih =>
    intro f b h
    rw [List.range_succ_eq_map, List.findSome?_cons] at h
    cases hf0 : f 0 with
    | some b0 =>
      simp only [hf0] at h
      refine ⟨0, by omega, ?_, fun j hj => absurd hj (by omega)⟩
      rw [hf0, h]
    | none =>
      simp only [hf0, List.findSome?_map] at h
      obtain ⟨i, hi, hfi, hprev⟩ := ih (f ∘ Nat.succ) b h
      refine ⟨i + 1, by omega, hfi, ?_⟩
      intro j hj
      cases j with
      | zero => exact hf0
      | succ j' => exact hprev j' (by omega)

lemma scan_entry_eq (g : Geom) (dev : Device) (i j : Nat) (hj : j < 128) :
    getLE32 dev (g.primaryFAT + i) (j * 4) % 2 ^ 28 = readFAT g dev (j + i * 128) := by
  unfold readFAT
  have hfi : fatIndices (j + i * 128) = (i, j * 4) := by
    unfold fatIndices
    have hdiv : (j + i * 128) / 128 = i := by
      rw [Nat.add_mul_div_right _ _ (by norm_num : 0 < 128), Nat.div_eq_of_lt hj, Nat.zero_add]
    have hmod : (j + i * 128) % 128 = j := by
      rw [Nat.add_mul_mod_self_right, Nat.mod_eq_of_lt hj]
    rw [hdiv, hmod]
  rw [hfi]

lemma allocFind_some_spec (g : Geom) (dev : Device) (c : Nat) (h : allocFind g dev = some c) :
    2 ≤ c ∧ c < g.numClusters ∧ c < 128 * g.fatSz32 ∧ readFAT g dev c = 0 ∧
      ∀ c', 2 ≤ c' → c' < g.numClusters → c' < c → readFAT g dev c' ≠ 0 := by
  unfold allocFind at h
  obtain ⟨i, hi, hFi, houter⟩ := range_findSome?_first _ _ _ h
  obtain ⟨j, hj, hGij, hinner⟩ := range_findSome?_first _ _ _ hFi
  have hmain : ¬(j + i * 128 < 2 ∨ g.numClusters ≤ j + i * 128) ∧
      getLE32 dev (g.primaryFAT + i) (j * 4) % 2 ^ 28 = 0 ∧ c = j + i * 128 := by
    by_cases h1 : j + i * 128 < 2 ∨ g.numClusters ≤ j + i * 128
    · rw [if_pos h1] at hGij; simp at hGij
    · rw [if_neg h1] at hGij
      by_cases h2 : getLE32 dev (g.primaryFAT + i) (j * 4) % 2 ^ 28 = 0
      · rw [if_pos h2] at hGij; exact ⟨h1, h2, (Option.some.inj hGij).symm⟩
      · rw [if_neg h2] at hGij; simp at hGij
  obtain ⟨hrange, hzero, hc⟩ := hmain
  subst hc
  have hbound : j + i * 128 < 128 * g.fatSz32 := by
    have h1i : i + 1 ≤ g.fatSz32 := hi
    have h128 : 128 * (i + 1) ≤ 128 * g.fatSz32 := Nat.mul_le_mul_left 128 h1i
    omega
  refine ⟨by omega, by omega, hbound, by rw [← scan_entry_eq g dev i j hj]; exact hzero, ?_⟩
  intro c' h2c' hc'N hc'lt hzero'
  have hj'128 : c' % 128 < 128 := by omega
  have hc' : c' = c' % 128 + c' / 128 * 128 := by omega
  have hcases : c' / 128 < i ∨ (c' / 128 = i ∧ c' % 128 < j) := by omega
  have hG : (if c' % 128 + c' / 128 * 128 < 2 ∨ g.numClusters ≤ c' % 128 + c' / 128 * 128
      then none
      else if getLE32 dev (g.primaryFAT + c' / 128) (c' % 128 * 4) % 2 ^ 28 = 0
        then some (c' % 128 + c' / 128 * 128) else none) = none := by
    rcases hcases with hlt | ⟨heq, hjlt⟩
    · have hFnone := houter (c' / 128) hlt
      have := List.findSome?_eq_none.mp hFnone (c' % 128) (List.mem_range.mpr hj'128)
      simpa using this
    · have := hinner (c' % 128) hjlt
      rw [heq]
      simpa using this
  rw [if_neg (by omega)] at hG
  rw [scan_entry_eq g dev (c' / 128) (c' % 128) hj'128, ← hc', if_pos hzero'] at hG
  exact Option.some_ne_none _ hG

lemma allocFind_none_spec (g : Geom) (dev : Device) (h : allocFind g dev = none) :
    ∀ c, c < 128 * g.fatSz32 → 2 ≤ c → c < g.numClusters → readFAT g dev c ≠ 0 := by
  intro c hcB h2c hcN hzero
  unfold allocFind at h
  have hdiv : c / 128 < g.fatSz32 := by omega
  have hmod : c % 128 < 128 := by omega
  have hF := List.findSome?_eq_none.mp h (c / 128) (List.mem_range.mpr hdiv)
  simp only at hF
  have hG := List.findSome?_eq_none.mp hF (c % 128) (List.mem_range.mpr hmod)
  simp only at hG
  have hc : c = c % 128 + c / 128 * 128 := by omega
  rw [if_neg (by omega)] at hG
  rw [scan_entry_eq g dev (c / 128) (c % 128) hmod, ← hc, if_pos hzero] at hG
  exact Option.some_ne_none _ hG

/-- C5.  `Alloc` is first-fit over the valid range: a successful call returns
the smallest cluster `c` with `2 ≤ c < NumClusters` whose 28-bit FAT entry is
zero, after writing `EOF` into that entry (and nothing else); indices below 2
or at/above `NumClusters` are never returned.  If no zero entry exists among
the `FatSz32 * 128` scanned entries, `Alloc` fails with the no-free-clusters
error, having written nothing (the model returns `none` before any write). -/
theorem C5_alloc_first_fit (g : Geom) (dev : Device) :
    (∀ c d', alloc g dev = some (c, d') →
      2 ≤ c ∧ c < g.numClusters ∧ readFAT g dev c = 0 ∧
      (∀ c', 2 ≤ c' → c' < g.numClusters → readFAT g dev c' = 0 → c ≤ c') ∧
      d' = writeFAT g dev c EOF) ∧
    (alloc g dev = none →
      ∀ c, c < 128 * g.fatSz32 → 2 ≤ c → c < g.numClusters → readFAT g dev c ≠ 0) := by
  constructor
  · intro c d' h
    unfold alloc at h
    cases hf : allocFind g dev with
    | none => rw [hf] at h; simp at h
    | some c0 =>
      rw [hf] at h
      simp only [Option.map_some'] at h
      have h' := Option.some.inj h
      have hc : c0 = c := congrArg Prod.fst h'
      have hd : writeFAT g dev c0 EOF = d' := congrArg Prod.snd h'
      subst hc
      obtain ⟨h2, hN, _, hzero, hmin⟩ := allocFind_some_spec g dev c0 hf
      refine ⟨h2, hN, hzero, ?_, hd.symm⟩
      intro c' h2c' hc'N hzero'
      by_contra hlt
      exact hmin c' h2c' hc'N (by omega) hzero'
  · intro h
    cases hf : allocFind g dev with
    | none => exact allocFind_none_spec g dev hf
    | some c0 =>
      unfold alloc at h
      rw [hf] at h
      simp at h

/-- Witness for C5: on a freshly zeroed FAT the first allocation returns
cluster 2. -/
theorem C5_witness : 2 ≤ 2 ∧ 2 < gTwo.numClusters ∧ readFAT gTwo devZero 2 = 0 := by
  have h := (C5_alloc_first_fit gTwo devZero).1 2 (writeFAT gTwo devZero 2 EOF) rfl
  exact ⟨h.1, h.2.1, h.2.2.1⟩

/-- Counterexample for C10 as stated: with two mirrors, if the primary write
succeeds and the second mirror's write is rejected, `Alloc` returns the
write error, yet `ReadFAT` of the chosen cluster reads `EOF` from the primary
FAT — not 0: the slot is not left free. -/
theorem C10_counterexample :
    (match allocF wokNoMirror gTwo devZero with
     | .writeErr c d => some (c, readFAT gTwo d c)
     | _ => none) = some (2, EOF) ∧ EOF ≠ 0 := by
  exact ⟨rfl, by decide⟩

/-- C10 (amended).  If the rejected mirror write is the first one — the
primary FAT's sector — then `Alloc`'s failed `WriteFAT` leaves the chosen
cluster's entry reading 0 from the primary FAT (the slot is still free). -/
theorem C10_alloc_write_failure (wok : Nat → Bool) (g : Geom) (dev : Device) (c : Nat)
    (d' : Device) (hn : 1 ≤ g.numFATs) (h : allocF wok g dev = .writeErr c d')
    (hp : wok ((fatIndices c).1 + g.rsvdSecCnt) = false) :
    readFAT g d' c = 0 := by
  unfold allocF at h
  cases hf : allocFind g dev with
  | none => rw [hf] at h; simp at h
  | some c0 =>
    rw [hf] at h
    replace h : (match writeFATf wok g dev c0 EOF with
      | (d, true) => AllocRes.ok c0 d
      | (d, false) => AllocRes.writeErr c0 d) = AllocRes.writeErr c d' := h
    rcases hw : writeFATf wok g dev c0 EOF with ⟨d, b⟩
    rw [hw] at h
    cases b with
    | true => simp at h
    | false =>
      simp only [AllocRes.writeErr.injEq] at h
      obtain ⟨hc, hd⟩ := h
      subst hc
      subst hd
      obtain ⟨tl, htl⟩ := fatSectors_head g hn
      unfold writeFATf at hw
      rw [htl] at hw
      unfold writeFATfAux at hw
      rw [hp] at hw
      simp only [Bool.false_eq_true, if_false, Prod.mk.injEq] at hw
      rw [← hw.1]
      exact (allocFind_some_spec g dev c0 hf).2.2.2.1

/-- Witness for the amended C10: rejecting the primary FAT write makes the
failed allocation leave the slot free. -/
theorem C10_witness : readFAT gTwo devZero 2 = 0 :=
  C10_alloc_write_failure wokNoPrimary gTwo devZero 2 devZero (by decide) rfl rfl

/-! ## Format postcondition -/

lemma writeSector_apply (d : Device) (t : Nat) (sec : Nat → Nat) (s o : Nat) :
    writeSector d t sec s o = if s = t then sec o else d s o := rfl

lemma erase_foldl (dev : Device) (n : Nat) (s o : Nat) :
    ((List.range n).foldl (fun d i => writeSector d i zeroSector) dev) s o =
      if s < n then 0 else dev s o := by
  induction n with
  | zero => simp [List.range_zero]
  | succ m ih =>
    rw [List.range_succ, List.foldl_append, List.foldl_cons, List.foldl_nil,
      writeSector_apply, ih]
    by_cases hs : s = m
    · rw [if_pos hs, if_pos (by omega)]
      rfl
    · rw [if_neg hs]
      by_cases h1 : s < m
      · rw [if_pos h1, if_pos (by omega)]
      · rw [if_neg h1, if_neg (by omega)]

lemma formatFS_true_eq (g : Geom) (bootSec : Nat → Nat) (dev : Device) :
    formatFS g bootSec dev true =
      (List.range 3).foldl (fun d i => writeFAT g d i EOF)
        (writeSector
          (writeSector
            ((List.range (g.rsvdSecCnt + 2 * g.fatSz32)).foldl
              (fun d i => writeSector d i zeroSector) dev) 0 bootSec)
          1 fsInfoSector) :=
  rfl

/-- C4.  After `FormatFS(device, label, erase=true)` succeeds, FAT entries
0, 1 and 2 equal the `EOF` marker in every mirror, every FAT entry from 3 up
to `NumClusters` is 0 in every mirror, all FAT mirrors are byte-identical,
and in particular `ReadFAT(2) = EOF` and `ReadFAT(3) = 0`.  The geometry `g`
stands for the boot sector built by `NewBootSector32` (spec-modelled, see
`SpecGeom`). -/
theorem C4_format_postcondition (g : Geom) (bootSec : Nat → Nat) (dev : Device)
    (hg : SpecGeom g) :
    (∀ k < 3, ∀ i < g.numFATs, entryWord g (formatFS g bootSec dev true) i k = EOF) ∧
    (∀ k, 3 ≤ k → k < g.numClusters →
      ∀ i < g.numFATs, entryWord g (formatFS g bootSec dev true) i k = 0) ∧
    MirrorsEq g (formatFS g bootSec dev true) ∧
    readFAT g (formatFS g bootSec dev true) 2 = EOF ∧
    readFAT g (formatFS g bootSec dev true) 3 = 0 := by
  obtain ⟨hrsvd, hnf, hfsz, hspc, hcap⟩ := hg
  -- the FAT region of the device after erase + boot-sector + FS-info writes
  -- is all zeroes
  have hzero : ∀ s o, 2 ≤ s → s < g.rsvdSecCnt + 2 * g.fatSz32 →
      (writeSector (writeSector ((List.range (g.rsvdSecCnt + 2 * g.fatSz32)).foldl
        (fun d i => writeSector d i zeroSector) dev) 0 bootSec) 1 fsInfoSector) s o = 0 := by
    intro s o h2 hlt
    rw [writeSector_apply, if_neg (by omega), writeSector_apply, if_neg (by omega),
      erase_foldl, if_pos hlt]
  have hsecB : ∀ i < g.numFATs, ∀ k : Nat, (fatIndices k).1 < g.fatSz32 →
      2 ≤ mirrorSec g i k ∧ mirrorSec g i k < g.rsvdSecCnt + 2 * g.fatSz32 := by
    intro i hi k hk
    have hmul : i * g.fatSz32 ≤ 1 * g.fatSz32 :=
      Nat.mul_le_mul_right _ (by omega)
    unfold mirrorSec
    omega
  have hD3entry : ∀ i < g.numFATs, ∀ k : Nat, (fatIndices k).1 < g.fatSz32 →
      entryWord g (writeSector (writeSector ((List.range (g.rsvdSecCnt + 2 * g.fatSz32)).foldl
        (fun d i => writeSector d i zeroSector) dev) 0 bootSec) 1 fsInfoSector) i k = 0 := by
    intro i hi k hk
    obtain ⟨hlo, hhi⟩ := hsecB i hi k hk
    unfold entryWord getLE32
    rw [hzero _ _ hlo hhi, hzero _ _ hlo hhi, hzero _ _ hlo hhi, hzero _ _ hlo hhi]
    norm_num
  have hD3mir : MirrorsEq g (writeSector (writeSector
      ((List.range (g.rsvdSecCnt + 2 * g.fatSz32)).foldl
        (fun d i => writeSector d i zeroSector) dev) 0 bootSec) 1 fsInfoSector) := by
    intro i hi t ht o ho
    have hmul : i * g.fatSz32 ≤ 1 * g.fatSz32 :=
      Nat.mul_le_mul_right _ (by omega)
    rw [hzero _ _ (by omega) (by omega), hzero _ _ (by omega) (by omega)]
  -- unfold the three seeding writes
  rw [formatFS_true_eq]
  set D3 := (writeSector (writeSector ((List.range (g.rsvdSecCnt + 2 * g.fatSz32)).foldl
    (fun d i => writeSector d i zeroSector) dev) 0 bootSec) 1 fsInfoSector) with hD3
  have hran : (List.range 3).foldl (fun d i => writeFAT g d i EOF) D3 =
      writeFAT g (writeFAT g (writeFAT g D3 0 EOF) 1 EOF) 2 EOF := by
    norm_num [List.range_succ, List.foldl_append]
  rw [hran]
  have hk0 : (fatIndices 0).1 < g.fatSz32 := by unfold fatIndices; omega
  have hk1 : (fatIndices 1).1 < g.fatSz32 := by unfold fatIndices; omega
  have hk2 : (fatIndices 2).1 < g.fatSz32 := by unfold fatIndices; omega
  have hEOFword : ∀ i < g.numFATs, ∀ k < 3,
      entryWord g (writeFAT g (writeFAT g (writeFAT g D3 0 EOF) 1 EOF) 2 EOF) i k = EOF := by
    intro i hi k hk3
    have hkk : (fatIndices k).1 < g.fatSz32 := by unfold fatIndices; omega
    interval_cases k
    · rw [writeFAT_entryWord_other g _ 2 0 EOF (by omega) hk2 hk0 i hi,
        writeFAT_entryWord_other g _ 1 0 EOF (by omega) hk1 hk0 i hi,
        writeFAT_entryWord_self g _ 0 EOF i hi hk0, hD3entry i hi 0 hk0]
      unfold EOF
      norm_num
    · rw [writeFAT_entryWord_other g _ 2 1 EOF (by omega) hk2 hk1 i hi,
        writeFAT_entryWord_self g _ 1 EOF i hi hk1,
        writeFAT_entryWord_other g _ 0 1 EOF (by omega) hk0 hk1 i hi, hD3entry i hi 1 hk1]
      unfold EOF
      norm_num
    · rw [writeFAT_entryWord_self g _ 2 EOF i hi hk2,
        writeFAT_entryWord_other g _ 1 2 EOF (by omega) hk1 hk2 i hi,
        writeFAT_entryWord_other g _ 0 2 EOF (by omega) hk0 hk2 i hi, hD3entry i hi 2 hk2]
      unfold EOF
      norm_num
  have hzeroword : ∀ i < g.numFATs, ∀ k, 3 ≤ k → (fatIndices k).1 < g.fatSz32 →
      entryWord g (writeFAT g (writeFAT g (writeFAT g D3 0 EOF) 1 EOF) 2 EOF) i k = 0 := by
    intro i hi k hk3 hkk
    rw [writeFAT_entryWord_other g _ 2 k EOF (by omega) hk2 hkk i hi,
      writeFAT_entryWord_other g _ 1 k EOF (by omega) hk1 hkk i hi,
      writeFAT_entryWord_other g _ 0 k EOF (by omega) hk0 hkk i hi]
    exact hD3entry i hi k hkk
  refine ⟨fun k hk3 i hi => hEOFword i hi k hk3, ?_, ?_, ?_, ?_⟩
  · intro k hk3 hkN i hi
    have hkk : (fatIndices k).1 < g.fatSz32 := by
      unfold fatIndices
      simp only
      omega
    exact hzeroword i hi k hk3 hkk
  · exact writeFAT_mirrorsEq g _ 2 EOF
      (writeFAT_mirrorsEq g _ 1 EOF (writeFAT_mirrorsEq g _ 0 EOF hD3mir hk0) hk1) hk2
  · rw [readFAT_eq_entryWord, hEOFword 0 (by omega) 2 (by omega)]
    unfold EOF
    norm_num
  · rw [readFAT_eq_entryWord, hzeroword 0 (by omega) 3 (by omega) (by unfold fatIndices; omega)]
    norm_num

/-- Witness for C4 on the spec's 1 MiB geometry. -/
theorem C4_witness :
    readFAT gFmt (formatFS gFmt zeroSector devZero true) 2 = EOF ∧
      readFAT gFmt (formatFS gFmt zeroSector devZero true) 3 = 0 := by
  have h := C4_format_postcondition gFmt zeroSector devZero
    (by refine ⟨rfl, rfl, by decide, by decide, by decide⟩)
  exact ⟨h.2.2.2.1, h.2.2.2.2⟩

/-! ## Seek: before-start error handling -/

/-- Counterexample for C9 as stated: `Seek` with whence `Start` and a negative
offset does not return the before-start error — the Go code indexes
`c.prev[offset]` with a negative index, an out-of-range slice access. -/
theorem C9_counterexample :
    seek gOne devZero ⟨5, []⟩ (-1) 0 = (.oob, ⟨5, []⟩) ∧
      SeekRes.oob ≠ SeekRes.beforeStart := by
  exact ⟨by decide, by decide⟩

/-- C9 (amended).  A `Seek` with whence `Current` whose negative offset
exceeds `len(back_path)` in magnitude returns the before-start error and
leaves the chain unchanged; a `Seek` with whence `Start` and a negative
offset performs an out-of-range `back_path` access (a runtime fault, not the
before-start error), also without mutating the chain first. -/
theorem C9_seek_before_start (g : Geom) (dev : Device) (c : Chain) (off : Int) :
    (off < 0 → (c.prev.length : Int) < -off → seek g dev c off 1 = (.beforeStart, c)) ∧
    (off < 0 → seek g dev c off 0 = (.oob, c)) := by
  constructor
  · intro h1 h2
    show seekCurrent g dev c off = (.beforeStart, c)
    unfold seekCurrent
    rw [if_pos h1, if_pos h2]
  · intro h1
    show seekStart g dev c off = (.oob, c)
    unfold seekStart
    have hlen : (0 : Int) ≤ (c.prev.length : Int) := Int.natCast_nonneg _
    rw [if_pos (by omega), if_pos h1]

/-- Witness for the amended C9. -/
theorem C9_witness :
    seek gOne devZero ⟨7, [5, 6]⟩ (-3) 1 = (.beforeStart, ⟨7, [5, 6]⟩) :=
  (C9_seek_before_start gOne devZero ⟨7, [5, 6]⟩ (-3)).1 (by decide) (by decide)

/-! ## The chain cursor invariant (C1) -/

lemma followFAT_succ_right (g : Geom) (dev : Device) :
    ∀ (n : Nat) (s : Nat), followFAT g dev s (n + 1) = readFAT g dev (followFAT g dev s n) := by
  intro n
  induction n with
  | zero => intro s; rfl
  | succ m ih =>
    intro s
    show followFAT g dev (readFAT g dev s) (m + 1) = _
    rw [ih (readFAT g dev s)]
    rfl

lemma getD_take_lt {l : List Nat} {n i : Nat} (h : i < n) :
    (l.take n).getD i 0 = l.getD i 0 := by
  rcases Nat.lt_or_ge i l.length with hi | hi
  · rw [List.getD_eq_getElem?_getD, List.getD_eq_getElem?_getD, List.getElem?_take,
      if_pos h]
  · rw [List.getD_eq_getElem?_getD, List.getD_eq_getElem?_getD,
      List.getElem?_eq_none (by simp [List.length_take]; omega),
      List.getElem?_eq_none (by omega)]

lemma seekInv_newChain (g : Geom) (dev : Device) (s : Nat) : SeekInv g dev s (newChain s) := by
  intro i hi
  unfold newChain at hi ⊢
  simp only [List.length_nil, Nat.le_zero] at hi
  subst hi
  rfl

lemma getD_append_last (l : List Nat) (x : Nat) : (l ++ [x]).getD l.length 0 = x := by
  rw [List.getD_append_right _ _ _ _ (le_refl _), Nat.sub_self]
  rfl

lemma seekInv_seekForward (g : Geom) (dev : Device) (s : Nat) :
    ∀ (n : Nat) (c : Chain), SeekInv g dev s c → SeekInv g dev s (seekForward g dev c n) := by
  intro n
  induction n with
  | zero => intro c hc; exact hc
  | succ m ih =>
    intro c hc
    unfold seekForward
    by_cases hEOF : EOF ≤ readFAT g dev c.cluster
    · rw [if_pos hEOF]; exact hc
    · rw [if_neg hEOF]
      apply ih
      intro i hi
      have hlen1 : (c.prev ++ [c.cluster]).length = c.prev.length + 1 := by simp
      rw [hlen1] at hi
      rcases Nat.lt_or_ge i (c.prev.length + 1) with hlt | hge
      · have h1 : ((c.prev ++ [c.cluster]) ++ [readFAT g dev c.cluster]).getD i 0 =
            (c.prev ++ [c.cluster]).getD i 0 :=
          List.getD_append _ _ _ _ (by rw [hlen1]; omega)
        rw [h1]
        exact hc i (by omega)
      · have hieq : i = c.prev.length + 1 := by omega
        subst hieq
        rw [followFAT_succ_right]
        have hlast := hc c.prev.length (le_refl _)
        rw [getD_append_last] at hlast
        rw [hlast]
        have h3 : ((c.prev ++ [c.cluster]) ++ [readFAT g dev c.cluster]).getD
            (c.prev.length + 1) 0 = readFAT g dev c.cluster := by
          have := getD_append_last (c.prev ++ [c.cluster]) (readFAT g dev c.cluster)
          rwa [hlen1] at this
        rw [h3]

lemma seekInv_rewind (g : Geom) (dev : Device) (s : Nat) (c : Chain) (n : Nat)
    (hn : n < c.prev.length) (hc : SeekInv g dev s c) :
    SeekInv g dev s ⟨c.prev.getD n 0, c.prev.take n⟩ := by
  intro i hi
  have hlen : (c.prev.take n).length = n := by rw [List.length_take]; omega
  rw [hlen] at hi
  rcases Nat.lt_or_ge i n with hlt | hge
  · have h1 : (c.prev.take n ++ [c.prev.getD n 0]).getD i 0 = (c.prev.take n).getD i 0 :=
      List.getD_append _ _ _ _ (by rw [hlen]; omega)
    rw [h1, getD_take_lt hlt]
    have h2 := hc i (by omega)
    rwa [List.getD_append _ _ _ _ (by omega)] at h2
  · have hieq : i = n := by omega
    subst hieq
    have h1 : (c.prev.take i ++ [c.prev.getD i 0]).getD i 0 = c.prev.getD i 0 := by
      have := getD_append_last (c.prev.take i) (c.prev.getD i 0)
      rwa [hlen] at this
    rw [h1]
    have h2 := hc i (by omega)
    rwa [List.getD_append _ _ _ _ (by omega)] at h2

lemma seekInv_seekCurrent (g : Geom) (dev : Device) (s : Nat) (c : Chain) (off : Int)
    (hc : SeekInv g dev s c) : SeekInv g dev s (seekCurrent g dev c off).2 := by
  by_cases h1 : off < 0
  · by_cases h2 : (c.prev.length : Int) < -off
    · have he : (seekCurrent g dev c off).2 = c := by
        unfold seekCurrent; rw [if_pos h1, if_pos h2]
      rw [he]; exact hc
    · have he : (seekCurrent g dev c off).2 =
          ⟨c.prev.getD ((c.prev.length : Int) + off).toNat 0,
            c.prev.take ((c.prev.length : Int) + off).toNat⟩ := by
        unfold seekCurrent; rw [if_pos h1, if_neg h2]
      rw [he]
      exact seekInv_rewind g dev s c _ (by omega) hc
  · have he : (seekCurrent g dev c off).2 = seekForward g dev c off.toNat := by
      unfold seekCurrent; rw [if_neg h1]
    rw [he]
    exact seekInv_seekForward g dev s _ c hc

lemma seekCurrent_pos (g : Geom) (dev : Device) (c : Chain) (off : Int) (p : Int)
    (h : (seekCurrent g dev c off).1 = .ok p) :
    p = ((seekCurrent g dev c off).2.prev.length : Int) := by
  by_cases h1 : off < 0
  · by_cases h2 : (c.prev.length : Int) < -off
    · rw [show (seekCurrent g dev c off).1 = .beforeStart by
        unfold seekCurrent; rw [if_pos h1, if_pos h2]] at h
      exact absurd h (by simp)
    · have he : seekCurrent g dev c off =
          (.ok (((c.prev.length : Int) + off).toNat : Nat),
            ⟨c.prev.getD ((c.prev.length : Int) + off).toNat 0,
              c.prev.take ((c.prev.length : Int) + off).toNat⟩) := by
        unfold seekCurrent; rw [if_pos h1, if_neg h2]
      rw [he] at h ⊢
      have hp := SeekRes.ok.inj h
      simp only [List.length_take]
      omega
  · have he : seekCurrent g dev c off =
        (.ok ((seekForward g dev c off.toNat).prev.length : Nat),
          seekForward g dev c off.toNat) := by
      unfold seekCurrent; rw [if_neg h1]
    rw [he] at h ⊢
    exact (SeekRes.ok.inj h).symm

lemma seekInv_seekStart (g : Geom) (dev : Device) (s : Nat) (c : Chain) (off : Int)
    (hc : SeekInv g dev s c) : SeekInv g dev s (seekStart g dev c off).2 := by
  by_cases h1 : off < (c.prev.length : Int)
  · by_cases h2 : off < 0
    · have he : (seekStart g dev c off).2 = c := by
        unfold seekStart; rw [if_pos h1, if_pos h2]
      rw [he]; exact hc
    · have he : (seekStart g dev c off).2 =
          ⟨c.prev.getD off.toNat 0, c.prev.take off.toNat⟩ := by
        unfold seekStart; rw [if_pos h1, if_neg h2]
      rw [he]
      exact seekInv_rewind g dev s c _ (by omega) hc
  · by_cases h3 : off = (c.prev.length : Int)
    · have he : (seekStart g dev c off).2 = c := by
        unfold seekStart; rw [if_neg h1, if_pos h3]
      rw [he]; exact hc
    · have he : (seekStart g dev c off).2 =
          (seekCurrent g dev c (off - c.prev.length)).2 := by
        unfold seekStart; rw [if_neg h1, if_neg h3]
      rw [he]
      exact seekInv_seekCurrent g dev s c _ hc

lemma seekStart_pos (g : Geom) (dev : Device) (c : Chain) (off : Int) (p : Int)
    (h : (seekStart g dev c off).1 = .ok p) :
    p = ((seekStart g dev c off).2.prev.length : Int) := by
  by_cases h1 : off < (c.prev.length : Int)
  · by_cases h2 : off < 0
    · rw [show (seekStart g dev c off).1 = .oob by
        unfold seekStart; rw [if_pos h1, if_pos h2]] at h
      exact absurd h (by simp)
    · have he : seekStart g dev c off =
          (.ok off, ⟨c.prev.getD off.toNat 0, c.prev.take off.toNat⟩) := by
        unfold seekStart; rw [if_pos h1, if_neg h2]
      rw [he] at h ⊢
      have hp := SeekRes.ok.inj h
      simp only [List.length_take]
      omega
  · by_cases h3 : off = (c.prev.length : Int)
    · have he : seekStart g dev c off = (.ok off, c) := by
        unfold seekStart; rw [if_neg h1, if_pos h3]
      rw [he] at h ⊢
      have hp := SeekRes.ok.inj h
      show p = (c.prev.length : Int)
      omega
    · have he : seekStart g dev c off = seekCurrent g dev c (off - c.prev.length) := by
        unfold seekStart; rw [if_neg h1, if_neg h3]
      rw [he] at h ⊢
      exact seekCurrent_pos g dev c _ p h

lemma seekInv_seek (g : Geom) (dev : Device) (s : Nat) (c : Chain) (off : Int) (wh : Nat)
    (hc : SeekInv g dev s c) : SeekInv g dev s (seek g dev c off wh).2 := by
  unfold seek
  by_cases h0 : wh = 0
  · rw [if_pos h0]; exact seekInv_seekStart g dev s c off hc
  · rw [if_neg h0]
    by_cases hw1 : wh = 1
    · rw [if_pos hw1]; exact seekInv_seekCurrent g dev s c off hc
    · rw [if_neg hw1]
      by_cases hw2 : wh = 2
      · rw [if_pos hw2]
        have hc1 : SeekInv g dev s (seekCurrent g dev c (2 ^ 32)).2 :=
          seekInv_seekCurrent g dev s c _ hc
        rcases hr1 : seekCurrent g dev c (2 ^ 32) with ⟨res1, c1⟩
        rw [hr1] at hc1
        cases res1 with
        | ok p1 => exact seekInv_seekCurrent g dev s c1 off hc1
        | beforeStart => exact hc1
        | badWhence => exact hc1
        | oob => exact hc1
      · rw [if_neg hw2]; exact hc

lemma seek_pos (g : Geom) (dev : Device) (c : Chain) (off : Int) (wh : Nat) (p : Int)
    (h : (seek g dev c off wh).1 = .ok p) :
    p = ((seek g dev c off wh).2.prev.length : Int) := by
  unfold seek at h ⊢
  by_cases h0 : wh = 0
  · rw [if_pos h0] at h ⊢; exact seekStart_pos g dev c off p h
  · rw [if_neg h0] at h ⊢
    by_cases hw1 : wh = 1
    · rw [if_pos hw1] at h ⊢; exact seekCurrent_pos g dev c off p h
    · rw [if_neg hw1] at h ⊢
      by_cases hw2 : wh = 2
      · rw [if_pos hw2] at h ⊢
        generalize hr1 : seekCurrent g dev c (2 ^ 32) = r1 at h ⊢
        obtain ⟨res1, c1⟩ := r1
        cases res1 with
        | ok p1 => exact seekCurrent_pos g dev c1 off p h
        | beforeStart => exact absurd h (by simp)
        | badWhence => exact absurd h (by simp)
        | oob => exact absurd h (by simp)
      · rw [if_neg hw2] at h ⊢
        exact absurd h (by simp)

lemma seekInv_runSeeks (g : Geom) (dev : Device) (s : Nat) :
    ∀ (ops : List (Int × Nat)) (c c' : Chain), SeekInv g dev s c →
      runSeeks g dev ops c = some c' → SeekInv g dev s c' := by
  intro ops
  induction ops with
  | nil =>
    intro c c' hc h
    rw [← Option.some.inj h]
    exact hc
  | cons op rest ih =>
    obtain ⟨off, wh⟩ := op
    intro c c' hc h
    unfold runSeeks at h
    rcases hs : seek g dev c off wh with ⟨res, c2⟩
    rw [hs] at h
    have hc2 : SeekInv g dev s c2 := by
      have := seekInv_seek g dev s c off wh hc
      rwa [hs] at this
    cases res with
    | ok p => exact ih c2 c' hc2 h
    | beforeStart => exact absurd h (by simp)
    | badWhence => exact absurd h (by simp)
    | oob => exact absurd h (by simp)

/-- C1.  Chain cursor invariant: starting from `NewChain(s)`, after any
sequence of `Seek` operations that all return without error, following FAT
links from `s` for `position` steps (where `position = len(back_path)`)
reaches the current cluster; every successful `Seek` returns a position equal
to the resulting `len(back_path)`; and `FirstCluster()` — `back_path[0]` when
the back path is non-empty, otherwise the current cluster — is still `s`. -/
theorem C1_seek_cursor_invariant (g : Geom) (dev : Device) (s : Nat)
    (ops : List (Int × Nat)) (c' : Chain)
    (h : runSeeks g dev ops (newChain s) = some c') :
    followFAT g dev s c'.prev.length = c'.cluster ∧
    c'.firstCluster = s ∧
    (∀ (c : Chain) (off : Int) (wh : Nat) (p : Int) (c2 : Chain),
      seek g dev c off wh = (.ok p, c2) → p = (c2.prev.length : Int)) := by
  have hinv := seekInv_runSeeks g dev s ops (newChain s) c' (seekInv_newChain g dev s) h
  refine ⟨?_, ?_, ?_⟩
  · have hl := hinv c'.prev.length (le_refl _)
    rwa [getD_append_last] at hl
  · have h0 := hinv 0 (Nat.zero_le _)
    obtain ⟨cl, pv⟩ := c'
    cases pv with
    | nil => exact h0.symm
    | cons a l => exact h0.symm
  · intro c off wh p c2 hseek
    have h1 : (seek g dev c off wh).1 = .ok p := by rw [hseek]
    have h2 := seek_pos g dev c off wh p h1
    rwa [hseek] at h2

set_option maxRecDepth 10000 in
/-- Witness for C1: a forward seek, a seek to the end, a backward seek and a
no-op absolute seek on a three-cluster chain. -/
theorem C1_witness :
    followFAT gOne devChain567 5 1 = 6 ∧ Chain.firstCluster ⟨6, [5]⟩ = 5 := by
  have h := C1_seek_cursor_invariant gOne devChain567 5
    [(2, 1), (0, 2), (-1, 1), (1, 0)] ⟨6, [5]⟩ (by decide)
  exact ⟨h.1, h.2.1⟩

/-! ## Free (C8) -/

lemma readFAT_frame_of_entryWord (g : Geom) (d d' : Device) (k : Nat) (hn : 1 ≤ g.numFATs)
    (h : entryWord g d' 0 k = entryWord g d 0 k) : readFAT g d' k = readFAT g d k := by
  rw [readFAT_eq_entryWord, readFAT_eq_entryWord, h]

lemma seek_zero_start (g : Geom) (dev : Device) (c : Chain) :
    seek g dev c 0 0 = (.ok 0, ⟨c.firstCluster, []⟩) := by
  obtain ⟨cl, pv⟩ := c
  show seekStart g dev ⟨cl, pv⟩ 0 = _
  cases pv with
  | nil =>
    unfold seekStart Chain.firstCluster
    norm_num
  | cons a l =>
    unfold seekStart Chain.firstCluster
    rw [if_pos (by simp only [List.length_cons]; omega)]
    norm_num

lemma freeLoop_spec (g : Geom) (hn : 1 ≤ g.numFATs) :
    ∀ (L : Nat) (dev : Device) (s : Nat) (fuel : Nat),
      (∀ i < L, followFAT g dev s i < EOF) →
      EOF ≤ followFAT g dev s L →
      (∀ i < L, (fatIndices (followFAT g dev s i)).1 < g.fatSz32) →
      (∀ i j, i ≤ L → j ≤ L → i ≠ j → followFAT g dev s i ≠ followFAT g dev s j) →
      L < fuel →
      ∃ d', freeLoop g dev s fuel = some d' ∧
        (∀ i < L, readFAT g d' (followFAT g dev s i) = 0) ∧
        (∀ k, (fatIndices k).1 < g.fatSz32 → (∀ i < L, k ≠ followFAT g dev s i) →
          ∀ mi < g.numFATs, entryWord g d' mi k = entryWord g dev mi k) := by
  intro L
  induction L with
  | zero =>
    intro dev s fuel _ hend _ _ hfuel
    obtain ⟨f, hf⟩ : ∃ f, fuel = f + 1 := ⟨fuel - 1, by omega⟩
    subst hf
    refine ⟨dev, ?_, fun i hi => absurd hi (by omega), fun k _ _ mi _ => rfl⟩
    unfold freeLoop
    rw [if_neg (by have := hend; unfold followFAT at this; omega)]
  | succ L ih =>
    intro dev s fuel hlt hend hbound hdup hfuel
    obtain ⟨f, hf⟩ : ∃ f, fuel = f + 1 := ⟨fuel - 1, by omega⟩
    subst hf
    have hs_lt : s < EOF := by have := hlt 0 (by omega); unfold followFAT at this; exact this
    have hs0 : followFAT g dev s 0 = s := rfl
    -- the remaining path is stable under zeroing its head entry
    have hstable : ∀ i, i ≤ L →
        followFAT g (writeFAT g dev s 0) (readFAT g dev s) i = followFAT g dev s (i + 1) := by
      intro i
      induction i with
      | zero => intro _; rfl
      | succ m ihm =>
        intro hm
        rw [followFAT_succ_right, ihm (by omega)]
        conv_rhs => rw [followFAT_succ_right]
        have hne : s ≠ followFAT g dev s (m + 1) := by
          intro hcontra
          exact hdup 0 (m + 1) (by omega) (by omega) (by omega) (hs0.trans hcontra)
        have hw := writeFAT_entryWord_other g dev s (followFAT g dev s (m + 1)) 0 hne
          (by have := hbound 0 (by omega); rwa [hs0] at this)
          (hbound (m + 1) (by omega)) 0 (by omega)
        exact readFAT_frame_of_entryWord g dev (writeFAT g dev s 0)
          (followFAT g dev s (m + 1)) hn hw
    have hnext := ih (writeFAT g dev s 0) (readFAT g dev s) f
      (by
        intro i hi
        rw [hstable i (by omega)]
        exact hlt (i + 1) (by omega))
      (by
        rw [hstable L (le_refl _)]
        exact hend)
      (by
        intro i hi
        rw [hstable i (by omega)]
        exact hbound (i + 1) (by omega))
      (by
        intro i j hi hj hij
        rw [hstable i hi, hstable j hj]
        exact hdup (i + 1) (j + 1) (by omega) (by omega) (by omega))
      (by omega)
    obtain ⟨d', heq, hzero, hframe⟩ := hnext
    refine ⟨d', ?_, ?_, ?_⟩
    · unfold freeLoop
      rw [if_pos hs_lt]
      exact heq
    · intro i hi
      cases i with
      | zero =>
        show readFAT g d' s = 0
        have hfr : entryWord g d' 0 s = entryWord g (writeFAT g dev s 0) 0 s := by
          refine hframe s (by have := hbound 0 (by omega); rwa [hs0] at this) ?_ 0 (by omega)
          intro i hiL
          rw [hstable i (by omega)]
          intro hcontra
          exact hdup 0 (i + 1) (by omega) (by omega) (by omega) (hs0.trans hcontra)
        have hr := readFAT_frame_of_entryWord g (writeFAT g dev s 0) d' s hn hfr
        rw [hr, readFAT_writeFAT_self g dev s 0 hn]
        norm_num
      | succ i =>
        have hz := hzero i (by omega)
        rwa [hstable i (by omega)] at hz
    · intro k hk hnotin mi hmi
      have h1 : entryWord g d' mi k = entryWord g (writeFAT g dev s 0) mi k := by
        refine hframe k hk ?_ mi hmi
        intro i hiL
        rw [hstable i (by omega)]
        exact hnotin (i + 1) (by omega)
      rw [h1]
      exact writeFAT_entryWord_other g dev s k 0
        (fun hcontra => hnotin 0 (by omega) (by rw [hs0]; exact hcontra.symm))
        (by have := hbound 0 (by omega); rwa [hs0] at this) hk mi hmi

/-- C8.  For every non-empty chain, a successful `Free` writes 0 into the FAT
entry of every cluster on the FAT traversal from the chain's first cluster up
to the first end-of-chain marker, and into no other FAT entry (every other
entry's on-disk word is unchanged in every mirror).  The traversal is assumed
to reach an `EOF` marker after `L` pairwise-distinct clusters within the FAT
(a well-formed chain). -/
theorem C8_free_zeroes_chain (g : Geom) (dev : Device) (c : Chain) (L fuel : Nat) (d' : Device)
    (hn : 1 ≤ g.numFATs)
    (hlt : ∀ i < L, followFAT g dev c.firstCluster i < EOF)
    (hend : EOF ≤ followFAT g dev c.firstCluster L)
    (hbound : ∀ i < L, (fatIndices (followFAT g dev c.firstCluster i)).1 < g.fatSz32)
    (hdup : ∀ i j, i ≤ L → j ≤ L → i ≠ j →
      followFAT g dev c.firstCluster i ≠ followFAT g dev c.firstCluster j)
    (hfuel : L < fuel)
    (h : free g (c, dev) fuel = some d') :
    (∀ i < L, readFAT g d' (followFAT g dev c.firstCluster i) = 0) ∧
    (∀ k, (fatIndices k).1 < g.fatSz32 → (∀ i < L, k ≠ followFAT g dev c.firstCluster i) →
      ∀ mi < g.numFATs, entryWord g d' mi k = entryWord g dev mi k) := by
  obtain ⟨d'', heq, hzero, hframe⟩ :=
    freeLoop_spec g hn L dev c.firstCluster fuel hlt hend hbound hdup hfuel
  have hfree : free g (c, dev) fuel = freeLoop g dev c.firstCluster fuel := by
    unfold free
    rw [seek_zero_start]
  rw [hfree, heq] at h
  have hd : d'' = d' := Option.some.inj h
  subst hd
  exact ⟨hzero, hframe⟩

/-- Witness for C8 on the concrete chain 5 → 6 → 7. -/
theorem C8_witness :
    readFAT gOne
      (writeFAT gOne (writeFAT gOne (writeFAT gOne devChain567 5 0) 6 0) 7 0) 6 = 0 ∧
    entryWord gOne
      (writeFAT gOne (writeFAT gOne (writeFAT gOne devChain567 5 0) 6 0) 7 0) 0 3 =
      entryWord gOne devChain567 0 3 := by
  have h := C8_free_zeroes_chain gOne devChain567 ⟨5, []⟩ 3 5
    (writeFAT gOne (writeFAT gOne (writeFAT gOne devChain567 5 0) 6 0) 7 0)
    (by decide) (by decide) (by decide) (by decide)
    (by intro i j hi hj hij; interval_cases i <;> interval_cases j <;> first | omega | decide)
    (by decide) rfl
  exact ⟨h.1 1 (by decide), h.2 3 (by decide) (by decide) 0 (by decide)⟩

/-! ## Extend and Truncate (C6) -/

lemma seekForward_at_end (g : Geom) (dev : Device) (c : Chain)
    (hEOF : EOF ≤ readFAT g dev c.cluster) : ∀ n, seekForward g dev c n = c := by
  intro n
  cases n with
  | zero => rfl
  | succ m =>
    unfold seekForward
    rw [if_pos hEOF]

lemma seekCurrent_nonneg_eq (g : Geom) (dev : Device) (c : Chain) (off : Int)
    (hoff : ¬off < 0) :
    seekCurrent g dev c off =
      (.ok ((seekForward g dev c off.toNat).prev.length : Int), seekForward g dev c off.toNat) := by
  unfold seekCurrent
  rw [if_neg hoff]

lemma seek_end_at_end (g : Geom) (dev : Device) (c : Chain)
    (hEOF : EOF ≤ readFAT g dev c.cluster) :
    seek g dev c 0 2 = (.ok (c.prev.length : Int), c) := by
  have h1 : seekCurrent g dev c (2 ^ 32) = (.ok (c.prev.length : Int), c) := by
    rw [seekCurrent_nonneg_eq g dev c _ (by norm_num), seekForward_at_end g dev c hEOF _]
  have h2 : seekCurrent g dev c 0 = (.ok (c.prev.length : Int), c) := by
    rw [seekCurrent_nonneg_eq g dev c _ (by norm_num), seekForward_at_end g dev c hEOF _]
  show (let r1 := seekCurrent g dev c (2 ^ 32);
    match r1.1 with
    | SeekRes.ok _ => seekCurrent g dev r1.2 0
    | e => (e, r1.2)) = (.ok (c.prev.length : Int), c)
  rw [h1]
  exact h2

lemma alloc_eq_some (g : Geom) (dev : Device) (a : Nat) (hfind : allocFind g dev = some a) :
    alloc g dev = some (a, writeFAT g dev a EOF) := by
  unfold alloc
  rw [hfind]
  rfl

lemma extend_at_end (g : Geom) (dev : Device) (c : Chain) (a : Nat)
    (hEOF : EOF ≤ readFAT g dev c.cluster) (hfind : allocFind g dev = some a) :
    extend g (c, dev) =
      some (⟨a, c.prev ++ [c.cluster]⟩, writeFAT g (writeFAT g dev a EOF) c.cluster a) := by
  show (match seek g dev c 0 2 with
    | (.ok _, c1) =>
      match alloc g dev with
      | some (cluster, d1) =>
        some (Chain.mk cluster (c1.prev ++ [c1.cluster]), writeFAT g d1 c1.cluster cluster)
      | none => none
    | _ => none) = _
  rw [seek_end_at_end g dev c hEOF, alloc_eq_some g dev a hfind]

lemma truncate_at_end (g : Geom) (dev : Device) (c : Chain) (prevLast : Nat)
    (hEOF : EOF ≤ readFAT g dev c.cluster) (hlast : c.prev.getLast? = some prevLast) :
    truncate g (c, dev) =
      some (⟨prevLast, c.prev.dropLast⟩,
        writeFAT g (writeFAT g dev prevLast EOF) c.cluster 0) := by
  show (match seek g dev c 0 2 with
    | (.ok _, c1) =>
      match c1.prev.getLast? with
      | none => none
      | some previous =>
        some (Chain.mk previous c1.prev.dropLast,
          writeFAT g (writeFAT g dev previous EOF) c1.cluster 0)
    | _ => none) = _
  rw [seek_end_at_end g dev c hEOF]
  show (match c.prev.getLast? with
    | none => (none : Option (Chain × Device))
    | some previous =>
      some (Chain.mk previous c.prev.dropLast,
        writeFAT g (writeFAT g dev previous EOF) c.cluster 0)) = _
  rw [hlast]

lemma bytes_of_word (d : Device) (s base o : Nat) (hB : ∀ x y, d x y < 256)
    (h1 : base ≤ o) (h2 : o ≤ base + 3) :
    wordByte (getLE32 d s base) (o - base) = d s o := by
  have hb0 := hB s base
  have hb1 := hB s (base + 1)
  have hb2 := hB s (base + 2)
  have hb3 := hB s (base + 3)
  have hcase : o = base ∨ o = base + 1 ∨ o = base + 2 ∨ o = base + 3 := by omega
  unfold wordByte getLE32
  rcases hcase with h | h | h | h <;> subst h
  · rw [Nat.sub_self]; norm_num; omega
  · rw [show base + 1 - base = 1 by omega]; norm_num; omega
  · rw [show base + 2 - base = 2 by omega]; norm_num; omega
  · rw [show base + 3 - base = 3 by omega]; norm_num; omega

lemma writeFAT_byte_other (g : Geom) (dev : Device) (k k' v : Nat) (hne : k ≠ k')
    (hk : (fatIndices k).1 < g.fatSz32) (hk' : (fatIndices k').1 < g.fatSz32)
    (i : Nat) (o : Nat) (ho1 : (fatIndices k').2 ≤ o) (ho2 : o ≤ (fatIndices k').2 + 3)
    (hi : i < g.numFATs) :
    writeFAT g dev k v (mirrorSec g i k') o = dev (mirrorSec g i k') o := by
  apply writeFAT_frame
  intro j _
  by_cases hsec : mirrorSec g i k' = mirrorSec g j k
  · obtain ⟨hdiv, _⟩ := mirrorSec_inj g k' k i j hk' hk hsec
    right
    have hkk : ¬(k / 128 = k' / 128 ∧ k % 128 = k' % 128) := by
      intro ⟨ha, hb⟩; exact hne (by omega)
    unfold fatIndices at hdiv ho1 ho2 ⊢
    simp only at hdiv ho1 ho2 ⊢
    omega
  · left
    exact hsec

lemma entryWord_lt (g : Geom) (dev : Device) (i k : Nat) (hB : ∀ x y, dev x y < 256) :
    entryWord g dev i k < 2 ^ 32 :=
  getLE32_lt dev _ _ hB

/-- Counterexample for C6 as stated: on a chain 2 → 3 whose end marker is the
non-canonical `0x0FFFFFFF` (a value ≥ `EOF` but not the `EOF` constant) and
whose cursor is at position 0, `Extend` followed by `Truncate` changes the
end entry's low byte from `0xFF` to `0xF8` — the FAT is not byte-identical —
and leaves the cursor at position 1, not at the original position 0. -/
theorem C6_counterexample :
    ((extend gOne (⟨2, []⟩, devOdd3)).bind (fun st => truncate gOne st)).map
        (fun st => (st.1, st.2 1 12)) = some (⟨3, [2]⟩, 0xF8) ∧
      devOdd3 1 12 = 0xFF ∧ (Chain.mk 3 [2]).prev.length ≠ (Chain.mk 2 []).prev.length := by
  exact ⟨by decide, by decide, by decide⟩

/-- C6 (amended).  For a chain whose cursor is at the final cluster and whose
final FAT entry is exactly the `EOF` constant (as `Alloc` and `FormatFS`
write it), with byte-identical mirrors, a successful `Extend` followed by a
successful `Truncate` restores the device byte-for-byte (the transiently
allocated cluster's entry is zero again with its reserved bits intact, the
old end's entry is `EOF` again) and returns the cursor to the original
cluster and position. -/
theorem C6_extend_truncate (g : Geom) (dev : Device) (c : Chain) (a : Nat)
    (st₁ st₂ : Chain × Device)
    (hn : 1 ≤ g.numFATs) (hB : ∀ s o, dev s o < 256) (hmir : MirrorsEq g dev)
    (hkc : (fatIndices c.cluster).1 < g.fatSz32)
    (hEOFx : readFAT g dev c.cluster = EOF)
    (hfind : allocFind g dev = some a)
    (h1 : extend g (c, dev) = some st₁)
    (h2 : truncate g st₁ = some st₂) :
    st₂.1 = c ∧ ∀ s o, st₂.2 s o = dev s o := by
  have hEOF' : EOF ≤ readFAT g dev c.cluster := le_of_eq hEOFx.symm
  have hspec := allocFind_some_spec g dev a hfind
  have hfree : readFAT g dev a = 0 := hspec.2.2.2.1
  have hka : (fatIndices a).1 < g.fatSz32 := by
    have hb := hspec.2.2.1
    unfold fatIndices
    simp only
    omega
  have hne : a ≠ c.cluster := by
    intro h
    rw [h, hEOFx] at hfree
    exact absurd hfree (by decide)
  rw [extend_at_end g dev c a hEOF' hfind] at h1
  obtain rfl := Option.some.inj h1
  set d1 := writeFAT g dev a EOF with hd1
  set d2 := writeFAT g d1 c.cluster a with hd2
  have hrd2a : readFAT g d2 a = EOF := by
    rw [hd2, readFAT_writeFAT_other g d1 c.cluster a a hn (fun h => hne h.symm) hkc hka,
      hd1, readFAT_writeFAT_self g dev a EOF hn]
    decide
  have hEOFd2 : EOF ≤ readFAT g d2 (Chain.mk a (c.prev ++ [c.cluster])).cluster := by
    show EOF ≤ readFAT g d2 a
    rw [hrd2a]
  rw [truncate_at_end g d2 (Chain.mk a (c.prev ++ [c.cluster])) c.cluster hEOFd2
    (by show (c.prev ++ [c.cluster]).getLast? = some c.cluster
        exact List.getLast?_concat _)] at h2
  obtain rfl := Option.some.inj h2
  constructor
  · show Chain.mk c.cluster (c.prev ++ [c.cluster]).dropLast = c
    rw [List.dropLast_concat]
  · intro s o
    show writeFAT g (writeFAT g d2 c.cluster EOF) a 0 s o = dev s o
    set d3 := writeFAT g d2 c.cluster EOF with hd3
    have hEOFlt : EOF < 2 ^ 28 := by decide
    by_cases hA : ∃ i, i < g.numFATs ∧ s = mirrorSec g i a ∧
        (fatIndices a).2 ≤ o ∧ o ≤ (fatIndices a).2 + 3
    · obtain ⟨i, hi, rfl, ho1, ho2⟩ := hA
      rw [writeFAT_byte_self g d3 a 0 i hi hka o ho1 ho2]
      have e3 : entryWord g d3 i a = entryWord g d2 i a := by
        rw [hd3]
        exact writeFAT_entryWord_other g d2 c.cluster a EOF (fun h => hne h.symm) hkc hka i hi
      have e2 : entryWord g d2 i a = entryWord g d1 i a := by
        rw [hd2]
        exact writeFAT_entryWord_other g d1 c.cluster a a (fun h => hne h.symm) hkc hka i hi
      have e1 : entryWord g d1 i a =
          EOF % 2 ^ 28 + entryWord g dev i a / 2 ^ 28 % 16 * 2 ^ 28 := by
        rw [hd1]
        exact writeFAT_entryWord_self g dev a EOF i hi hka
      have haU : entryWord g dev i a % 2 ^ 28 = 0 := by
        rw [entryWord_mirrors_eq g dev a i hmir hi hka, ← readFAT_eq_entryWord g dev a]
        exact hfree
      have hU32 : entryWord g dev i a < 2 ^ 32 := entryWord_lt g dev i a hB
      have hX : 0 % 2 ^ 28 + entryWord g d3 i a / 2 ^ 28 % 16 * 2 ^ 28 =
          entryWord g dev i a := by
        rw [e3, e2, e1]
        omega
      rw [hX]
      show wordByte (getLE32 dev (mirrorSec g i a) (fatIndices a).2) (o - (fatIndices a).2) =
        dev (mirrorSec g i a) o
      exact bytes_of_word dev _ _ o hB ho1 ho2
    · by_cases hC : ∃ i, i < g.numFATs ∧ s = mirrorSec g i c.cluster ∧
          (fatIndices c.cluster).2 ≤ o ∧ o ≤ (fatIndices c.cluster).2 + 3
      · obtain ⟨i, hi, rfl, ho1, ho2⟩ := hC
        rw [writeFAT_byte_other g d3 a c.cluster 0 hne hka hkc i o ho1 ho2 hi]
        rw [hd3, writeFAT_byte_self g d2 c.cluster EOF i hi hkc o ho1 ho2]
        have e2 : entryWord g d2 i c.cluster =
            a % 2 ^ 28 + entryWord g d1 i c.cluster / 2 ^ 28 % 16 * 2 ^ 28 := by
          rw [hd2]
          exact writeFAT_entryWord_self g d1 c.cluster a i hi hkc
        have e1 : entryWord g d1 i c.cluster = entryWord g dev i c.cluster := by
          rw [hd1]
          exact writeFAT_entryWord_other g dev a c.cluster EOF hne hka hkc i hi
        have hW : entryWord g dev i c.cluster % 2 ^ 28 = EOF := by
          rw [entryWord_mirrors_eq g dev c.cluster i hmir hi hkc,
            ← readFAT_eq_entryWord g dev c.cluster]
          exact hEOFx
        have hW32 : entryWord g dev i c.cluster < 2 ^ 32 := entryWord_lt g dev i c.cluster hB
        have hX : EOF % 2 ^ 28 + entryWord g d2 i c.cluster / 2 ^ 28 % 16 * 2 ^ 28 =
            entryWord g dev i c.cluster := by
          rw [e2, e1]
          omega
        rw [hX]
        show wordByte (getLE32 dev (mirrorSec g i c.cluster) (fatIndices c.cluster).2)
          (o - (fatIndices c.cluster).2) = dev (mirrorSec g i c.cluster) o
        exact bytes_of_word dev _ _ o hB ho1 ho2
      · have hcondA : ∀ i < g.numFATs,
            s ≠ mirrorSec g i a ∨ o < (fatIndices a).2 ∨ (fatIndices a).2 + 3 < o := by
          intro i hi
          by_cases hs : s = mirrorSec g i a
          · right
            have hno : ¬((fatIndices a).2 ≤ o ∧ o ≤ (fatIndices a).2 + 3) :=
              fun hw => hA ⟨i, hi, hs, hw.1, hw.2⟩
            omega
          · left; exact hs
        have hcondC : ∀ i < g.numFATs, s ≠ mirrorSec g i c.cluster ∨
            o < (fatIndices c.cluster).2 ∨ (fatIndices c.cluster).2 + 3 < o := by
          intro i hi
          by_cases hs : s = mirrorSec g i c.cluster
          · right
            have hno : ¬((fatIndices c.cluster).2 ≤ o ∧ o ≤ (fatIndices c.cluster).2 + 3) :=
              fun hw => hC ⟨i, hi, hs, hw.1, hw.2⟩
            omega
          · left; exact hs
        rw [writeFAT_frame g d3 a 0 s o hcondA, hd3,
          writeFAT_frame g d2 c.cluster EOF s o hcondC, hd2,
          writeFAT_frame g d1 c.cluster a s o hcondC, hd1,
          writeFAT_frame g dev a EOF s o hcondA]

set_option maxRecDepth 100000 in
/-- Witness for the amended C6: on a single-cluster chain at cluster 2 ending
with the exact `EOF` constant, `Extend` then `Truncate` restores the FAT
bytes of both touched entries. -/
theorem C6_witness :
    writeFAT gOne (writeFAT gOne (writeFAT gOne (writeFAT gOne devEnd2 3 EOF) 2 3) 2 EOF) 3 0
        1 12 = devEnd2 1 12 ∧
    writeFAT gOne (writeFAT gOne (writeFAT gOne (writeFAT gOne devEnd2 3 EOF) 2 3) 2 EOF) 3 0
        1 8 = devEnd2 1 8 := by
  have h := C6_extend_truncate gOne devEnd2 ⟨2, []⟩ 3
    (⟨3, [2]⟩, writeFAT gOne (writeFAT gOne devEnd2 3 EOF) 2 3)
    (⟨2, []⟩,
      writeFAT gOne (writeFAT gOne (writeFAT gOne (writeFAT gOne devEnd2 3 EOF) 2 3) 2 EOF) 3 0)
    (by decide)
    (by intro s o; unfold devEnd2; split_ifs <;> decide)
    (by
      intro i hi t ht o ho
      have hi0 : i = 0 := by
        have : gOne.numFATs = 1 := rfl
        omega
      subst hi0
      norm_num)
    (by decide) (by decide) (by decide) rfl rfl
  exact ⟨h.2 1 12, h.2 1 8⟩

/-! ## Data-region lemmas (cluster reads and writes) -/

lemma foldl_writeSector_offset (base n : Nat) (secf : Nat → Nat → Nat) :
    ∀ (dev : Device) (s o : Nat),
      ((List.range n).foldl (fun d i => writeSector d (base + i) (secf i)) dev) s o =
        if base ≤ s ∧ s < base + n then secf (s - base) o else dev s o := by
  induction n with
  | zero =>
    intro dev s o
    rw [List.range_zero, List.foldl_nil, if_neg (by omega)]
  | succ m ih =>
    intro dev s o
    rw [List.range_succ, List.foldl_append, List.foldl_cons, List.foldl_nil,
      writeSector_apply, ih]
    by_cases hs : s = base + m
    · rw [if_pos hs, if_pos (by omega), hs, show base + m - base = m from by omega]
    · rw [if_neg hs]
      by_cases h2 : base ≤ s ∧ s < base + m
      · rw [if_pos h2, if_pos (by omega)]
      · rw [if_neg h2, if_neg (by omega)]

lemma writeClusterDev_apply (g : Geom) (dev : Device) (cluster : Nat) (data : List Nat)
    (s o : Nat) :
    writeClusterDev g dev cluster data s o =
      if clusterSector g cluster ≤ s ∧ s < clusterSector g cluster + g.secPerClus
      then data.getD ((s - clusterSector g cluster) * SectorSize + o) 0 else dev s o := by
  unfold writeClusterDev
  exact foldl_writeSector_offset (clusterSector g cluster) g.secPerClus
    (fun i oo => data.getD (i * SectorSize + oo) 0) dev s o

lemma readCluster_writeClusterDev_self (g : Geom) (dev : Device) (cluster : Nat)
    (data : List Nat) (hlen : data.length = g.clusterSize) :
    readCluster g (writeClusterDev g dev cluster data) cluster = data := by
  unfold readCluster
  apply List.ext_getElem
  · simp [hlen]
  · intro t h1 h2
    have ht : t < g.secPerClus * 512 := by
      have h1' : t < g.clusterSize := by simpa using h1
      unfold Geom.clusterSize SectorSize at h1'
      exact h1'
    have hdiv : t / SectorSize < g.secPerClus := by
      show t / 512 < g.secPerClus
      omega
    rw [List.getElem_map, List.getElem_range, writeClusterDev_apply,
      if_pos ⟨Nat.le_add_right _ _, Nat.add_lt_add_left hdiv _⟩]
    rw [show clusterSector g cluster + t / SectorSize - clusterSector g cluster = t / SectorSize
      from Nat.add_sub_cancel_left _ _]
    rw [show t / SectorSize * SectorSize + t % SectorSize = t from by
      show t / 512 * 512 + t % 512 = t
      omega]
    exact List.getD_eq_getElem data 0 h2

lemma readCluster_frame (g : Geom) (d d' : Device) (cluster : Nat)
    (h : ∀ i < g.secPerClus, ∀ o < SectorSize,
      d' (clusterSector g cluster + i) o = d (clusterSector g cluster + i) o) :
    readCluster g d' cluster = readCluster g d cluster := by
  unfold readCluster
  apply List.ext_getElem
  · simp
  · intro t h1 h2
    have ht : t < g.secPerClus * 512 := by
      have h1' : t < g.clusterSize := by simpa using h1
      unfold Geom.clusterSize SectorSize at h1'
      exact h1'
    rw [List.getElem_map, List.getElem_range, List.getElem_map, List.getElem_range]
    apply h
    · show t / 512 < g.secPerClus
      omega
    · show t % 512 < 512
      omega

lemma clusterSector_disjoint (g : Geom) (aC b : Nat) (hspc : 1 ≤ g.secPerClus)
    (ha : 2 ≤ aC) (hb : 2 ≤ b) (hne : b ≠ aC) (i : Nat) (hi : i < g.secPerClus) :
    ¬(clusterSector g aC ≤ clusterSector g b + i ∧
      clusterSector g b + i < clusterSector g aC + g.secPerClus) := by
  unfold clusterSector
  intro ⟨h1, h2⟩
  rcases Nat.lt_or_ge (aC - 2) (b - 2) with hlt | hge
  · have hmul : (aC - 2 + 1) * g.secPerClus ≤ (b - 2) * g.secPerClus :=
      Nat.mul_le_mul_right _ (by omega)
    rw [Nat.add_mul, Nat.one_mul] at hmul
    omega
  · have hne2 : b - 2 < aC - 2 := by omega
    have hmul : (b - 2 + 1) * g.secPerClus ≤ (aC - 2) * g.secPerClus :=
      Nat.mul_le_mul_right _ (by omega)
    rw [Nat.add_mul, Nat.one_mul] at hmul
    omega

lemma readCluster_writeClusterDev_other (g : Geom) (dev : Device) (cluster : Nat)
    (data : List Nat) (b : Nat) (hspc : 1 ≤ g.secPerClus) (ha : 2 ≤ cluster) (hb : 2 ≤ b)
    (hne : b ≠ cluster) :
    readCluster g (writeClusterDev g dev cluster data) b = readCluster g dev b := by
  apply readCluster_frame
  intro i hi o ho
  rw [writeClusterDev_apply, if_neg (clusterSector_disjoint g cluster b hspc ha hb hne i hi)]

lemma mirrorSec_lt_firstData (g : Geom) (k i : Nat) (hk : (fatIndices k).1 < g.fatSz32)
    (hi : i < g.numFATs) : mirrorSec g i k < g.firstDataSector := by
  unfold mirrorSec Geom.firstDataSector
  have hmul : (i + 1) * g.fatSz32 ≤ g.numFATs * g.fatSz32 :=
    Nat.mul_le_mul_right _ (by omega)
  rw [Nat.add_mul, Nat.one_mul] at hmul
  omega

lemma firstData_le_clusterSector (g : Geom) (cluster : Nat) :
    g.firstDataSector ≤ clusterSector g cluster := by
  unfold clusterSector
  omega

lemma readFAT_writeClusterDev (g : Geom) (dev : Device) (cluster : Nat) (data : List Nat)
    (k : Nat) (ha : 2 ≤ cluster) (hk : (fatIndices k).1 < g.fatSz32) (hn : 1 ≤ g.numFATs) :
    readFAT g (writeClusterDev g dev cluster data) k = readFAT g dev k := by
  unfold readFAT
  have hcongr := getLE32_congr dev (writeClusterDev g dev cluster data)
    (g.primaryFAT + (fatIndices k).1) (fatIndices k).2 ?_
  · rw [hcongr]
  · intro j _
    rw [writeClusterDev_apply]
    have hsec : g.primaryFAT + (fatIndices k).1 < g.firstDataSector := by
      have := mirrorSec_lt_firstData g k 0 hk (by omega)
      unfold mirrorSec at this
      unfold Geom.primaryFAT
      omega
    have := firstData_le_clusterSector g cluster
    rw [if_neg (by omega)]

lemma readCluster_writeFAT (g : Geom) (d : Device) (cluster k v : Nat) (ha : 2 ≤ cluster)
    (hk : (fatIndices k).1 < g.fatSz32) :
    readCluster g (writeFAT g d k v) cluster = readCluster g d cluster := by
  apply readCluster_frame
  intro i hi o ho
  apply writeFAT_frame
  intro j hj
  left
  have h1 := mirrorSec_lt_firstData g k j hk hj
  have h2 := firstData_le_clusterSector g cluster
  omega

/-! ## Chain-state lemmas for Extend and the read/write loops (C7) -/

lemma fatIdx_lt (q f : Nat) (h : q < 128 * f) : (fatIndices q).1 < f := by
  unfold fatIndices
  simp only
  omega

lemma nodup_getD_ne {Q : List Nat} (hnd : Q.Nodup) {i j : Nat} (hi : i < Q.length)
    (hj : j < Q.length) (hij : i ≠ j) : Q.getD i 0 ≠ Q.getD j 0 := by
  rw [List.getD_eq_getElem Q 0 hi, List.getD_eq_getElem Q 0 hj]
  intro hcontra
  exact hij ((hnd.getElem_inj_iff).mp hcontra)

lemma nodup_concat {Q : List Nat} {a : Nat} (h1 : Q.Nodup) (h2 : a ∉ Q) :
    (Q ++ [a]).Nodup := by
  rw [List.nodup_append]
  refine ⟨h1, List.nodup_singleton _, ?_⟩
  intro x hx
  simp only [List.mem_singleton]
  intro hxa
  exact h2 (hxa ▸ hx)

lemma chainState_len (g : Geom) (c : Chain) (dev : Device) (Q : List Nat)
    (hcs : ChainState g c dev Q) : Q.length = c.prev.length + 1 := by
  rw [hcs.1]
  simp

lemma chainState_last (g : Geom) (c : Chain) (dev : Device) (Q : List Nat)
    (hcs : ChainState g c dev Q) : Q.getD (Q.length - 1) 0 = c.cluster := by
  have h1 := hcs.1
  rw [h1]
  have h2 : (c.prev ++ [c.cluster]).length - 1 = c.prev.length := by simp
  rw [h2]
  exact getD_append_last _ _

lemma chainState_getD_mem (Q : List Nat) (i : Nat) (hi : i < Q.length) :
    Q.getD i 0 ∈ Q := by
  rw [List.getD_eq_getElem Q 0 hi]
  exact List.getElem_mem hi

lemma chainState_entry_ne_zero (g : Geom) (c : Chain) (dev : Device) (Q : List Nat)
    (hcs : ChainState g c dev Q) (q : Nat) (hq : q ∈ Q) : readFAT g dev q ≠ 0 := by
  obtain ⟨i, hi, rfl⟩ := List.mem_iff_getElem.mp hq
  rw [← List.getD_eq_getElem Q 0 hi]
  rcases Nat.lt_or_ge (i + 1) Q.length with hlt | hge
  · rw [hcs.2.1 i hlt]
    have hmem := chainState_getD_mem Q (i + 1) hlt
    have := (hcs.2.2.2.1 _ hmem).1
    omega
  · have hie : i = Q.length - 1 := by omega
    rw [hie, chainState_last g c dev Q hcs]
    have h3 := hcs.2.2.1
    have hEOFpos : 0 < EOF := by decide
    omega

lemma extend_none_of_alloc_none (g : Geom) (dev : Device) (c : Chain)
    (hEOF : EOF ≤ readFAT g dev c.cluster) (hfind : allocFind g dev = none) :
    extend g (c, dev) = none := by
  show (match seek g dev c 0 2 with
    | (.ok _, c1) =>
      match alloc g dev with
      | some (cluster, d1) =>
        some (Chain.mk cluster (c1.prev ++ [c1.cluster]), writeFAT g d1 c1.cluster cluster)
      | none => none
    | _ => none) = none
  rw [seek_end_at_end g dev c hEOF, show alloc g dev = none from by unfold alloc; rw [hfind]; rfl]

lemma extend_spec (g : Geom) (dev : Device) (c : Chain) (Q : List Nat)
    (hWF : GWF g) (hcs : ChainState g c dev Q) (st' : Chain × Device)
    (h : extend g (c, dev) = some st') :
    ∃ a, allocFind g dev = some a ∧ a ∉ Q ∧ 2 ≤ a ∧ a < g.numClusters ∧
      st' = (⟨a, c.prev ++ [c.cluster]⟩, writeFAT g (writeFAT g dev a EOF) c.cluster a) ∧
      ChainState g st'.1 st'.2 (Q ++ [a]) ∧
      (∀ b, 2 ≤ b → readCluster g st'.2 b = readCluster g dev b) ∧
      (∀ k, (fatIndices k).1 < g.fatSz32 → k ≠ a → k ≠ c.cluster →
        readFAT g st'.2 k = readFAT g dev k) := by
  obtain ⟨hspc, hn, hcap, hclE⟩ := hWF
  have hEOF : EOF ≤ readFAT g dev c.cluster := hcs.2.2.1
  cases hfind : allocFind g dev with
  | none => rw [extend_none_of_alloc_none g dev c hEOF hfind] at h; exact absurd h (by simp)
  | some a =>
    rw [extend_at_end g dev c a hEOF hfind] at h
    obtain rfl := Option.some.inj h
    have hspec := allocFind_some_spec g dev a hfind
    have hfree : readFAT g dev a = 0 := hspec.2.2.2.1
    have h2a : 2 ≤ a := hspec.1
    have haN : a < g.numClusters := hspec.2.1
    have hka : (fatIndices a).1 < g.fatSz32 := fatIdx_lt a _ (by omega)
    have hnotin : a ∉ Q := fun hmem =>
      chainState_entry_ne_zero g c dev Q hcs a hmem hfree
    have hccl : c.cluster ∈ Q := by
      rw [hcs.1]
      simp
    have hcclN : c.cluster < g.numClusters := (hcs.2.2.2.1 _ hccl).2
    have hkc : (fatIndices c.cluster).1 < g.fatSz32 := fatIdx_lt _ _ (by omega)
    have hnecl : a ≠ c.cluster := by
      intro hcontra
      rw [hcontra] at hfree
      have : 0 < EOF := by decide
      omega
    have ha28 : a % 2 ^ 28 = a := by
      have hE : EOF < 2 ^ 28 := by decide
      omega
    have hmemBound : ∀ q ∈ Q, (fatIndices q).1 < g.fatSz32 := by
      intro q hq
      exact fatIdx_lt q _ (by have := (hcs.2.2.2.1 q hq).2; omega)
    -- the two FAT writes seen from an arbitrary entry
    have hrd : ∀ k, (fatIndices k).1 < g.fatSz32 → k ≠ a → k ≠ c.cluster →
        readFAT g (writeFAT g (writeFAT g dev a EOF) c.cluster a) k = readFAT g dev k := by
      intro k hk hka2 hkc2
      rw [readFAT_writeFAT_other g (writeFAT g dev a EOF) c.cluster k a hn
          (fun hcontra => hkc2 hcontra.symm) hkc hk,
        readFAT_writeFAT_other g dev a k EOF hn (fun hcontra => hka2 hcontra.symm) hka hk]
    have hrdcl : readFAT g (writeFAT g (writeFAT g dev a EOF) c.cluster a) c.cluster = a := by
      rw [readFAT_writeFAT_self g (writeFAT g dev a EOF) c.cluster a hn, ha28]
    have hrda : readFAT g (writeFAT g (writeFAT g dev a EOF) c.cluster a) a = EOF := by
      rw [readFAT_writeFAT_other g (writeFAT g dev a EOF) c.cluster a a hn
          (fun hcontra => hnecl hcontra.symm) hkc hka,
        readFAT_writeFAT_self g dev a EOF hn]
      decide
    refine ⟨a, rfl, hnotin, h2a, haN, rfl, ?_, ?_, hrd⟩
    · -- the extended chain state
      refine ⟨?_, ?_, ?_, ?_, ?_⟩
      · show Q ++ [a] = (c.prev ++ [c.cluster]) ++ [a]
        rw [hcs.1]
      · intro i hi
        have hlen : (Q ++ [a]).length = Q.length + 1 := by simp
        rw [hlen] at hi
        rcases Nat.lt_or_ge (i + 1) Q.length with hlt | hge
        · rw [List.getD_append _ _ _ _ (by omega), List.getD_append _ _ _ _ (by omega)]
          have hZi := chainState_getD_mem Q i (by omega)
          have hZne_a : Q.getD i 0 ≠ a := fun hcontra => hnotin (hcontra ▸ hZi)
          have hZne_c : Q.getD i 0 ≠ c.cluster := by
            have := chainState_last g c dev Q hcs
            intro hcontra
            exact nodup_getD_ne hcs.2.2.2.2 (by omega : i < Q.length)
              (by omega : Q.length - 1 < Q.length) (by omega) (hcontra.trans this.symm)
          rw [hrd _ (hmemBound _ hZi) hZne_a hZne_c]
          exact hcs.2.1 i hlt
        · have hie : i = Q.length - 1 := by omega
          have hQpos : 1 ≤ Q.length := by
            rw [chainState_len g c dev Q hcs]
            omega
          rw [List.getD_append _ _ _ _ (by omega),
            show i + 1 = Q.length from by omega, getD_append_last]
          rw [hie, chainState_last g c dev Q hcs]
          exact hrdcl
      · show EOF ≤ readFAT g (writeFAT g (writeFAT g dev a EOF) c.cluster a) a
        rw [hrda]
      · intro q hq
        rcases List.mem_append.mp hq with hq1 | hq2
        · exact hcs.2.2.2.1 q hq1
        · rw [List.mem_singleton] at hq2
          subst hq2
          exact ⟨h2a, haN⟩
      · exact nodup_concat hcs.2.2.2.2 hnotin
    · intro b hb
      show readCluster g (writeFAT g (writeFAT g dev a EOF) c.cluster a) b = readCluster g dev b
      rw [readCluster_writeFAT g _ b c.cluster a hb hkc,
        readCluster_writeFAT g _ b a EOF hb hka]

lemma seekForward_one (g : Geom) (dev : Device) (c : Chain)
    (h : ¬EOF ≤ readFAT g dev c.cluster) :
    seekForward g dev c 1 = ⟨readFAT g dev c.cluster, c.prev ++ [c.cluster]⟩ := by
  show (if EOF ≤ readFAT g dev c.cluster then c
    else seekForward g dev ⟨readFAT g dev c.cluster, c.prev ++ [c.cluster]⟩ 0) = _
  rw [if_neg h]
  rfl

lemma writeToLoop_spec (g : Geom) (dev : Device) :
    ∀ (R : List Nat) (c : Chain) (acc : List Nat) (fuel : Nat),
      R.length < fuel →
      (∀ i, i + 1 < (c.cluster :: R).length →
        readFAT g dev ((c.cluster :: R).getD i 0) = (c.cluster :: R).getD (i + 1) 0) →
      EOF ≤ readFAT g dev ((c.cluster :: R).getD R.length 0) →
      (∀ q ∈ R, q < EOF) →
      ∃ c', writeToLoop g dev c (c.prev.length : Int) acc fuel =
        some (acc ++ ((c.cluster :: R).map (readCluster g dev)).flatten, c') := by
  intro R
  induction R with
  | nil =>
    intro c acc fuel hfuel hlink hend hlt
    obtain ⟨f, rfl⟩ : ∃ f, fuel = f + 1 := ⟨fuel - 1, by omega⟩
    have hE : EOF ≤ readFAT g dev c.cluster := by simpa using hend
    refine ⟨c, ?_⟩
    show (match seek g dev c 1 1 with
      | (.ok newOffset, c2) =>
        if newOffset = (c.prev.length : Int) then
          some (acc ++ readCluster g dev c.cluster, c2)
        else writeToLoop g dev c2 ((c.prev.length : Int) + 1)
          (acc ++ readCluster g dev c.cluster) f
      | _ => none) = _
    rw [show seek g dev c 1 1 = seekCurrent g dev c 1 from rfl,
      seekCurrent_nonneg_eq g dev c 1 (by norm_num),
      show (1 : Int).toNat = 1 from rfl, seekForward_at_end g dev c hE 1]
    show (if (c.prev.length : Int) = (c.prev.length : Int) then
        some (acc ++ readCluster g dev c.cluster, c)
      else writeToLoop g dev c ((c.prev.length : Int) + 1)
        (acc ++ readCluster g dev c.cluster) f) = _
    rw [if_pos rfl]
    simp
  | cons q R' ih =>
    intro c acc fuel hfuel hlink hend hlt
    obtain ⟨f, rfl⟩ : ∃ f, fuel = f + 1 := ⟨fuel - 1, by omega⟩
    have hstep : readFAT g dev c.cluster = q := by
      have h0 := hlink 0 (by simp)
      simpa using h0
    have hqE : q < EOF := hlt q (by simp)
    have hnE : ¬EOF ≤ readFAT g dev c.cluster := by rw [hstep]; omega
    have hfwd : seekForward g dev c 1 = ⟨q, c.prev ++ [c.cluster]⟩ := by
      rw [seekForward_one g dev c hnE, hstep]
    have hlink' : ∀ i, i + 1 < (q :: R').length →
        readFAT g dev ((q :: R').getD i 0) = (q :: R').getD (i + 1) 0 := by
      intro i hi
      have h2 := hlink (i + 1) (by simp only [List.length_cons] at hi ⊢; omega)
      simpa only [List.getD_cons_succ] using h2
    have hend' : EOF ≤ readFAT g dev ((q :: R').getD R'.length 0) := by
      have h2 := hend
      simp only [List.length_cons] at h2
      simpa only [List.getD_cons_succ] using h2
    have hlt' : ∀ x ∈ R', x < EOF := fun x hx => hlt x (List.mem_cons_of_mem _ hx)
    obtain ⟨c', hc'⟩ := ih ⟨q, c.prev ++ [c.cluster]⟩ (acc ++ readCluster g dev c.cluster) f
      (by simp only [List.length_cons] at hfuel; omega) hlink' hend' hlt'
    rw [show (((Chain.mk q (c.prev ++ [c.cluster])).prev.length : Nat) : Int) =
      (c.prev.length : Int) + 1 from by
        show (((c.prev ++ [c.cluster]).length : Nat) : Int) = (c.prev.length : Int) + 1
        simp] at hc'
    refine ⟨c', ?_⟩
    show (match seek g dev c 1 1 with
      | (.ok newOffset, c2) =>
        if newOffset = (c.prev.length : Int) then
          some (acc ++ readCluster g dev c.cluster, c2)
        else writeToLoop g dev c2 ((c.prev.length : Int) + 1)
          (acc ++ readCluster g dev c.cluster) f
      | _ => none) = _
    rw [show seek g dev c 1 1 = seekCurrent g dev c 1 from rfl,
      seekCurrent_nonneg_eq g dev c 1 (by norm_num),
      show (1 : Int).toNat = 1 from rfl, hfwd]
    show (if (((c.prev ++ [c.cluster]).length : Nat) : Int) = (c.prev.length : Int) then
        some (acc ++ readCluster g dev c.cluster, ⟨q, c.prev ++ [c.cluster]⟩)
      else writeToLoop g dev ⟨q, c.prev ++ [c.cluster]⟩ ((c.prev.length : Int) + 1)
        (acc ++ readCluster g dev c.cluster) f) = _
    rw [if_neg (by
      intro hco
      simp only [List.length_append, List.length_cons, List.length_nil] at hco
      omega)]
    rw [hc']
    simp [List.append_assoc]

lemma writeTo_spec (g : Geom) (dev : Device) (c : Chain) (Q : List Nat) (fuel : Nat)
    (hWF : GWF g) (hcs : ChainState g c dev Q) (hfuel : Q.length ≤ fuel) :
    ∃ c', writeTo g dev c fuel = some ((Q.map (readCluster g dev)).flatten, c') := by
  have hQ : c.firstCluster :: Q.tail = Q := by
    rw [hcs.1]
    obtain ⟨cl, pv⟩ := c
    cases pv with
    | nil => rfl
    | cons p ps => rfl
  have hQlen : 1 ≤ Q.length := by rw [chainState_len g c dev Q hcs]; omega
  have hlink : ∀ i, i + 1 < (c.firstCluster :: Q.tail).length →
      readFAT g dev ((c.firstCluster :: Q.tail).getD i 0) =
        (c.firstCluster :: Q.tail).getD (i + 1) 0 := by
    rw [hQ]
    exact hcs.2.1
  have hend : EOF ≤ readFAT g dev ((c.firstCluster :: Q.tail).getD Q.tail.length 0) := by
    rw [hQ, List.length_tail, chainState_last g c dev Q hcs]
    exact hcs.2.2.1
  have hlt : ∀ q ∈ Q.tail, q < EOF := by
    intro q hq
    have h1 := (hcs.2.2.2.1 q (List.mem_of_mem_tail hq)).2
    have h2 := hWF.2.2.2
    omega
  have hfl : Q.tail.length < fuel := by
    rw [List.length_tail]
    omega
  obtain ⟨c', hc'⟩ :=
    writeToLoop_spec g dev Q.tail ⟨c.firstCluster, []⟩ [] fuel hfl hlink hend hlt
  rw [hQ, List.nil_append] at hc'
  refine ⟨c', ?_⟩
  show (match seek g dev c 0 0 with
    | (.ok _, c1) => writeToLoop g dev c1 0 [] fuel
    | _ => none) = _
  rw [seek_zero_start g dev c]
  exact hc'

lemma readFromLoop_succ (g : Geom) (st : Chain × Device) (r : List Nat) (nx : Bool)
    (fuel : Nat) :
    readFromLoop g st r nx (fuel + 1) =
      if min g.clusterSize r.length = 0 then some (0, st)
      else
        match if nx then extend g st else some st with
        | none => none
        | some st1 =>
          match writeCluster g st1.2 st1.1.cluster
              (r.take (min g.clusterSize r.length) ++
                List.replicate (g.clusterSize - min g.clusterSize r.length) 0) with
          | none => none
          | some d2 =>
            if min g.clusterSize r.length < g.clusterSize then
              some (min g.clusterSize r.length, st1.1, d2)
            else
              match readFromLoop g (st1.1, d2) (r.drop (min g.clusterSize r.length)) true fuel with
              | some (n, stf) => some (min g.clusterSize r.length + n, stf)
              | none => none := rfl

lemma chainState_writeClusterDev (g : Geom) (c : Chain) (dev : Device) (Q : List Nat)
    (hWF : GWF g) (hcs : ChainState g c dev Q) (b : Nat) (hb : 2 ≤ b) (data : List Nat) :
    ChainState g c (writeClusterDev g dev b data) Q := by
  obtain ⟨hspc, hn, hcap, hclE⟩ := hWF
  obtain ⟨h1, h2, h3, h4, h5⟩ := hcs
  have hrw : ∀ q ∈ Q, readFAT g (writeClusterDev g dev b data) q = readFAT g dev q := by
    intro q hq
    exact readFAT_writeClusterDev g dev b data q hb
      (fatIdx_lt q _ (by have := (h4 q hq).2; omega)) hn
  refine ⟨h1, ?_, ?_, h4, h5⟩
  · intro i hi
    rw [hrw _ (chainState_getD_mem Q i (by omega))]
    exact h2 i hi
  · rw [hrw c.cluster (by rw [h1]; simp)]
    exact h3

lemma readFromLoop_rec (g : Geom) (hWF : GWF g) :
    ∀ (fuel : Nat) (r : List Nat) (c : Chain) (dev : Device) (Q : List Nat),
      ChainState g c dev Q → r.length < fuel →
      ∀ (n : Nat) (c' : Chain) (dev' : Device),
        readFromLoop g (c, dev) r true fuel = some (n, c', dev') →
        n = r.length ∧
        ∃ A, ChainState g c' dev' (Q ++ A) ∧
          A.length = (r.length + g.clusterSize - 1) / g.clusterSize ∧
          r.length ≤ A.length * g.clusterSize ∧
          (∀ q ∈ Q, readCluster g dev' q = readCluster g dev q) ∧
          (A.map (readCluster g dev')).flatten =
            r ++ List.replicate (A.length * g.clusterSize - r.length) 0 := by
  have hCS : 512 ≤ g.clusterSize := by
    show 512 ≤ g.secPerClus * 512
    have := hWF.1
    omega
  intro fuel
  induction fuel with
  | zero =>
    intro r c dev Q hcs hfuel
    exact absurd hfuel (by omega)
  | succ f ih =>
    intro r c dev Q hcs hfuel n c' dev' h
    rw [readFromLoop_succ] at h
    by_cases hm : min g.clusterSize r.length = 0
    · rw [if_pos hm] at h
      have hr0 : r.length = 0 := by omega
      obtain rfl : r = ([] : List Nat) := by
        cases r with
        | nil => rfl
        | cons a t => simp at hr0
      have h2 := Option.some.inj h
      have hn : n = 0 := (congrArg Prod.fst h2).symm
      have hc2 : c' = c := (congrArg (fun p => p.2.1) h2).symm
      have hd2 : dev' = dev := (congrArg (fun p => p.2.2) h2).symm
      subst hn hc2 hd2
      refine ⟨rfl, [], ?_, ?_, ?_, fun q hq => rfl, ?_⟩
      · rw [List.append_nil]
        exact hcs
      · exact (Nat.div_eq_of_lt (by omega)).symm
      · exact Nat.zero_le _
      · simp
    · rw [if_neg hm] at h
      rw [if_pos rfl] at h
      have hm1 : 1 ≤ r.length := by omega
      cases hext : extend g (c, dev) with
      | none =>
        rw [hext] at h
        replace h : (none : Option (Nat × Chain × Device)) = some (n, c', dev') := h
        exact absurd h (by simp)
      | some st1 =>
        rw [hext] at h
        obtain ⟨c1, dev1⟩ := st1
        obtain ⟨a, hfind, hnotinQ, h2a, haN, hsteq, hcs1, hpres1, hrdk⟩ :=
          extend_spec g dev c Q hWF hcs (c1, dev1) hext
        have hc1a : c1.cluster = a := congrArg (fun p => (Prod.fst p).cluster) hsteq
        have hc1two : 2 ≤ c1.cluster := by rw [hc1a]; exact h2a
        have hbuflen : (r.take (min g.clusterSize r.length) ++
            List.replicate (g.clusterSize - min g.clusterSize r.length) 0).length =
            g.clusterSize := by
          rw [List.length_append, List.length_take, List.length_replicate]
          omega
        replace h :
            (match writeCluster g dev1 c1.cluster
                (r.take (min g.clusterSize r.length) ++
                  List.replicate (g.clusterSize - min g.clusterSize r.length) 0) with
              | none => (none : Option (Nat × Chain × Device))
              | some d2 =>
                if min g.clusterSize r.length < g.clusterSize then
                  some (min g.clusterSize r.length, c1, d2)
                else
                  match readFromLoop g (c1, d2) (r.drop (min g.clusterSize r.length)) true f with
                  | some (nn, stf) => some (min g.clusterSize r.length + nn, stf)
                  | none => none) = some (n, c', dev') := h
        set D2 := writeClusterDev g dev1 c1.cluster
            (r.take (min g.clusterSize r.length) ++
              List.replicate (g.clusterSize - min g.clusterSize r.length) 0) with hD2
        have hwceq : writeCluster g dev1 c1.cluster
            (r.take (min g.clusterSize r.length) ++
              List.replicate (g.clusterSize - min g.clusterSize r.length) 0) = some D2 := by
          rw [hD2]
          unfold writeCluster
          rw [if_pos hbuflen]
        rw [hwceq] at h
        replace h :
            (if min g.clusterSize r.length < g.clusterSize then
              some (min g.clusterSize r.length, c1, D2)
            else
              match readFromLoop g (c1, D2) (r.drop (min g.clusterSize r.length)) true f with
              | some (nn, stf) => some (min g.clusterSize r.length + nn, stf)
              | none => none) = some (n, c', dev') := h
        have hcsD2 : ChainState g c1 D2 (Q ++ [a]) := by
          rw [hD2]
          exact chainState_writeClusterDev g c1 dev1 (Q ++ [a]) hWF hcs1 c1.cluster hc1two _
        by_cases hlt2 : min g.clusterSize r.length < g.clusterSize
        · rw [if_pos hlt2] at h
          have h2 := Option.some.inj h
          have hn : n = min g.clusterSize r.length := (congrArg Prod.fst h2).symm
          have hc2 : c1 = c' := congrArg (fun p => p.2.1) h2
          have hd2 : D2 = dev' := congrArg (fun p => p.2.2) h2
          have hmr : min g.clusterSize r.length = r.length := by omega
          subst hc2 hd2
          refine ⟨by omega, [a], hcsD2, ?_, ?_, ?_, ?_⟩
          · show 1 = (r.length + g.clusterSize - 1) / g.clusterSize
            rw [show r.length + g.clusterSize - 1 = (r.length - 1) + g.clusterSize from by omega,
              Nat.add_div_right _ (by omega : 0 < g.clusterSize),
              Nat.div_eq_of_lt (by omega : r.length - 1 < g.clusterSize)]
          · show r.length ≤ 1 * g.clusterSize
            rw [Nat.one_mul]
            omega
          · intro q hq
            have hq2 : 2 ≤ q := (hcs.2.2.2.1 q hq).1
            have hqa : q ≠ a := fun hcontra => hnotinQ (hcontra ▸ hq)
            rw [hD2, readCluster_writeClusterDev_other g dev1 c1.cluster _ q hWF.1 hc1two hq2
              (by rw [hc1a]; exact hqa)]
            exact hpres1 q hq2
          · simp only [List.map_cons, List.map_nil, List.flatten_cons, List.flatten_nil,
              List.append_nil, List.length_singleton]
            rw [← hc1a]
            have hself : readCluster g D2 c1.cluster =
                r.take (min g.clusterSize r.length) ++
                  List.replicate (g.clusterSize - min g.clusterSize r.length) 0 := by
              rw [hD2]
              exact readCluster_writeClusterDev_self g dev1 c1.cluster _ hbuflen
            rw [hself, hmr, List.take_length, Nat.one_mul]
        · rw [if_neg hlt2] at h
          have hmCS : min g.clusterSize r.length = g.clusterSize := by omega
          have hCSler : g.clusterSize ≤ r.length := by omega
          cases hrec : readFromLoop g (c1, D2) (r.drop (min g.clusterSize r.length)) true f with
          | none =>
            rw [hrec] at h
            replace h : (none : Option (Nat × Chain × Device)) = some (n, c', dev') := h
            exact absurd h (by simp)
          | some p =>
            obtain ⟨nn, cf, devf⟩ := p
            rw [hrec] at h
            replace h : some (min g.clusterSize r.length + nn, cf, devf) =
              some (n, c', dev') := h
            have h2 := Option.some.inj h
            have hn : n = min g.clusterSize r.length + nn := (congrArg Prod.fst h2).symm
            have hc2 : c' = cf := (congrArg (fun p => p.2.1) h2).symm
            have hd2 : dev' = devf := (congrArg (fun p => p.2.2) h2).symm
            subst hc2 hd2
            have hdroplen : (r.drop (min g.clusterSize r.length)).length < f := by
              rw [List.length_drop]
              omega
            obtain ⟨hnn, A', hcsA', hlenA', hleA', hpresA', hdataA'⟩ :=
              ih (r.drop (min g.clusterSize r.length)) c1 D2 (Q ++ [a]) hcsD2 hdroplen
                nn c' dev' hrec
            constructor
            · rw [List.length_drop] at hnn
              omega
            refine ⟨a :: A', ?_, ?_, ?_, ?_, ?_⟩
            · rw [show Q ++ a :: A' = (Q ++ [a]) ++ A' from by simp]
              exact hcsA'
            · show A'.length + 1 = (r.length + g.clusterSize - 1) / g.clusterSize
              rw [show r.length + g.clusterSize - 1 =
                  ((r.drop (min g.clusterSize r.length)).length + g.clusterSize - 1) +
                    g.clusterSize from by rw [List.length_drop]; omega,
                Nat.add_div_right _ (by omega : 0 < g.clusterSize), ← hlenA']
            · show r.length ≤ (A'.length + 1) * g.clusterSize
              rw [Nat.add_mul, Nat.one_mul]
              rw [List.length_drop] at hleA'
              set x := A'.length * g.clusterSize with hx
              omega
            · intro q hq
              have hq2 : 2 ≤ q := (hcs.2.2.2.1 q hq).1
              have hqa : q ≠ a := fun hcontra => hnotinQ (hcontra ▸ hq)
              rw [hpresA' q (List.mem_append_left _ hq), hD2,
                readCluster_writeClusterDev_other g dev1 c1.cluster _ q hWF.1 hc1two hq2
                  (by rw [hc1a]; exact hqa)]
              exact hpres1 q hq2
            · simp only [List.map_cons, List.flatten_cons, List.length_cons]
              have hfa : readCluster g dev' a =
                  r.take (min g.clusterSize r.length) ++
                    List.replicate (g.clusterSize - min g.clusterSize r.length) 0 := by
                rw [← hc1a, hpresA' c1.cluster (by rw [hc1a]; simp), hD2]
                exact readCluster_writeClusterDev_self g dev1 c1.cluster _ hbuflen
              rw [hfa, hdataA', hmCS]
              simp only [Nat.sub_self, List.replicate_zero, List.append_nil]
              rw [← List.append_assoc, List.take_append_drop,
                show A'.length * g.clusterSize - (r.drop g.clusterSize).length =
                    (A'.length + 1) * g.clusterSize - r.length from by
                  rw [List.length_drop, Nat.add_mul, Nat.one_mul]
                  set x := A'.length * g.clusterSize with hx
                  omega]

lemma readFromLoop_first (g : Geom) (hWF : GWF g) (fuel : Nat) (r : List Nat)
    (c : Chain) (dev : Device)
    (hcs : ChainState g c dev [c.cluster])
    (hzero : readCluster g dev c.cluster = List.replicate g.clusterSize 0)
    (hfuel : r.length < fuel)
    (n : Nat) (c' : Chain) (dev' : Device)
    (h : readFromLoop g (c, dev) r false fuel = some (n, c', dev')) :
    n = r.length ∧
    ∃ A, ChainState g c' dev' (c.cluster :: A) ∧
      (c.cluster :: A).length = max 1 ((r.length + g.clusterSize - 1) / g.clusterSize) ∧
      r.length ≤ (c.cluster :: A).length * g.clusterSize ∧
      ((c.cluster :: A).map (readCluster g dev')).flatten =
        r ++ List.replicate ((c.cluster :: A).length * g.clusterSize - r.length) 0 := by
  have hCS : 512 ≤ g.clusterSize := by
    show 512 ≤ g.secPerClus * 512
    have := hWF.1
    omega
  have hc2 : 2 ≤ c.cluster := (hcs.2.2.2.1 c.cluster (by simp)).1
  obtain ⟨f, rfl⟩ : ∃ f, fuel = f + 1 := ⟨fuel - 1, by omega⟩
  rw [readFromLoop_succ] at h
  by_cases hm : min g.clusterSize r.length = 0
  · rw [if_pos hm] at h
    have hr0 : r.length = 0 := by omega
    obtain rfl : r = ([] : List Nat) := by
      cases r with
      | nil => rfl
      | cons a t => simp at hr0
    have h2 := Option.some.inj h
    have hn : n = 0 := (congrArg Prod.fst h2).symm
    have hc2' : c = c' := congrArg (fun p => p.2.1) h2
    have hd2' : dev = dev' := congrArg (fun p => p.2.2) h2
    subst hn hc2' hd2'
    refine ⟨rfl, [], hcs, ?_, ?_, ?_⟩
    · simp only [List.length_singleton, List.length_nil]
      rw [Nat.div_eq_of_lt (by omega : 0 + g.clusterSize - 1 < g.clusterSize)]
      omega
    · simp only [List.length_singleton, Nat.one_mul, List.length_nil]
      omega
    · simp only [List.map_cons, List.map_nil, List.flatten_cons, List.flatten_nil,
        List.append_nil, List.length_singleton, List.length_nil, List.nil_append,
        Nat.one_mul, Nat.sub_zero]
      exact hzero
  · rw [if_neg hm] at h
    rw [if_neg Bool.false_ne_true] at h
    have hm1 : 1 ≤ r.length := by omega
    have hbuflen : (r.take (min g.clusterSize r.length) ++
        List.replicate (g.clusterSize - min g.clusterSize r.length) 0).length =
        g.clusterSize := by
      rw [List.length_append, List.length_take, List.length_replicate]
      omega
    replace h :
        (match writeCluster g dev c.cluster
            (r.take (min g.clusterSize r.length) ++
              List.replicate (g.clusterSize - min g.clusterSize r.length) 0) with
          | none => (none : Option (Nat × Chain × Device))
          | some d2 =>
            if min g.clusterSize r.length < g.clusterSize then
              some (min g.clusterSize r.length, c, d2)
            else
              match readFromLoop g (c, d2) (r.drop (min g.clusterSize r.length)) true f with
              | some (nn, stf) => some (min g.clusterSize r.length + nn, stf)
              | none => none) = some (n, c', dev') := h
    set D2 := writeClusterDev g dev c.cluster
        (r.take (min g.clusterSize r.length) ++
          List.replicate (g.clusterSize - min g.clusterSize r.length) 0) with hD2
    have hwceq : writeCluster g dev c.cluster
        (r.take (min g.clusterSize r.length) ++
          List.replicate (g.clusterSize - min g.clusterSize r.length) 0) = some D2 := by
      rw [hD2]
      unfold writeCluster
      rw [if_pos hbuflen]
    rw [hwceq] at h
    replace h :
        (if min g.clusterSize r.length < g.clusterSize then
          some (min g.clusterSize r.length, c, D2)
        else
          match readFromLoop g (c, D2) (r.drop (min g.clusterSize r.length)) true f with
          | some (nn, stf) => some (min g.clusterSize r.length + nn, stf)
          | none => none) = some (n, c', dev') := h
    have hcsD2 : ChainState g c D2 [c.cluster] := by
      rw [hD2]
      exact chainState_writeClusterDev g c dev [c.cluster] hWF hcs c.cluster hc2 _
    have hself : readCluster g D2 c.cluster =
        r.take (min g.clusterSize r.length) ++
          List.replicate (g.clusterSize - min g.clusterSize r.length) 0 := by
      rw [hD2]
      exact readCluster_writeClusterDev_self g dev c.cluster _ hbuflen
    by_cases hlt2 : min g.clusterSize r.length < g.clusterSize
    · rw [if_pos hlt2] at h
      have h2 := Option.some.inj h
      have hn : n = min g.clusterSize r.length := (congrArg Prod.fst h2).symm
      have hc2' : c = c' := congrArg (fun p => p.2.1) h2
      have hd2' : D2 = dev' := congrArg (fun p => p.2.2) h2
      have hmr : min g.clusterSize r.length = r.length := by omega
      subst hc2' hd2'
      refine ⟨by omega, [], hcsD2, ?_, ?_, ?_⟩
      · simp only [List.length_singleton]
        rw [show r.length + g.clusterSize - 1 = (r.length - 1) + g.clusterSize from by omega,
          Nat.add_div_right _ (by omega : 0 < g.clusterSize),
          Nat.div_eq_of_lt (by omega : r.length - 1 < g.clusterSize)]
        omega
      · simp only [List.length_singleton, Nat.one_mul]
        omega
      · simp only [List.map_cons, List.map_nil, List.flatten_cons, List.flatten_nil,
          List.append_nil, List.length_singleton, Nat.one_mul]
        rw [hself, hmr, List.take_length]
    · rw [if_neg hlt2] at h
      have hmCS : min g.clusterSize r.length = g.clusterSize := by omega
      have hCSler : g.clusterSize ≤ r.length := by omega
      cases hrec : readFromLoop g (c, D2) (r.drop (min g.clusterSize r.length)) true f with
      | none =>
        rw [hrec] at h
        replace h : (none : Option (Nat × Chain × Device)) = some (n, c', dev') := h
        exact absurd h (by simp)
      | some p =>
        obtain ⟨nn, cf, devf⟩ := p
        rw [hrec] at h
        replace h : some (min g.clusterSize r.length + nn, cf, devf) =
          some (n, c', dev') := h
        have h2 := Option.some.inj h
        have hn : n = min g.clusterSize r.length + nn := (congrArg Prod.fst h2).symm
        have hc2' : c' = cf := (congrArg (fun p => p.2.1) h2).symm
        have hd2' : dev' = devf := (congrArg (fun p => p.2.2) h2).symm
        subst hc2' hd2'
        have hdroplen : (r.drop (min g.clusterSize r.length)).length < f := by
          rw [List.length_drop]
          omega
        obtain ⟨hnn, A', hcsA', hlenA', hleA', hpresA', hdataA'⟩ :=
          readFromLoop_rec g hWF f (r.drop (min g.clusterSize r.length)) c D2 [c.cluster]
            hcsD2 hdroplen nn c' dev' hrec
        constructor
        · rw [List.length_drop] at hnn
          omega
        refine ⟨A', ?_, ?_, ?_, ?_⟩
        · exact hcsA'
        · show A'.length + 1 = max 1 ((r.length + g.clusterSize - 1) / g.clusterSize)
          have hone : 1 ≤ (r.length + g.clusterSize - 1) / g.clusterSize := by
            rw [Nat.le_div_iff_mul_le (by omega : 0 < g.clusterSize), Nat.one_mul]
            omega
          rw [Nat.max_eq_right hone,
            show r.length + g.clusterSize - 1 =
                ((r.drop (min g.clusterSize r.length)).length + g.clusterSize - 1) +
                  g.clusterSize from by rw [List.length_drop]; omega,
            Nat.add_div_right _ (by omega : 0 < g.clusterSize), ← hlenA']
        · show r.length ≤ (A'.length + 1) * g.clusterSize
          rw [Nat.add_mul, Nat.one_mul]
          rw [List.length_drop] at hleA'
          set x := A'.length * g.clusterSize with hx
          omega
        · simp only [List.map_cons, List.flatten_cons, List.length_cons]
          have hfc : readCluster g dev' c.cluster = readCluster g D2 c.cluster :=
            hpresA' c.cluster (by simp)
          rw [hfc, hself, hdataA', hmCS]
          simp only [Nat.sub_self, List.replicate_zero, List.append_nil]
          rw [← List.append_assoc, List.take_append_drop,
            show A'.length * g.clusterSize - (r.drop g.clusterSize).length =
                (A'.length + 1) * g.clusterSize - r.length from by
              rw [List.length_drop, Nat.add_mul, Nat.one_mul]
              set x := A'.length * g.clusterSize with hx
              omega]

/-- C7: round trip through the chain with zero padding.  Starting from a fresh
single-cluster chain on cluster `s` whose FAT entry is an end marker and whose
data is all zeroes, if `ReadFrom` over the byte sequence `B` completes
successfully returning `n` with chain cursor `c'` and device `dev'`, then
`n = |B|`, the chain afterwards holds `max 1 ⌈|B| / ClusterSize⌉` clusters, and
`WriteTo` (which itself begins with `Seek(0, Start)`) writes exactly those
whole clusters: `B` followed by zeroes up to the cluster boundary. -/
theorem C7_readFrom_writeTo (g : Geom) (dev : Device) (s : Nat) (B : List Nat)
    (fuel1 fuel2 n : Nat) (c' : Chain) (dev' : Device)
    (hWF : GWF g) (hs2 : 2 ≤ s) (hsN : s < g.numClusters)
    (hEOF : EOF ≤ readFAT g dev s)
    (hzero : readCluster g dev s = List.replicate g.clusterSize 0)
    (hfuel1 : B.length < fuel1) (hfuel2 : c'.prev.length + 1 ≤ fuel2)
    (h : readFrom g (newChain s, dev) B fuel1 = some (n, c', dev')) :
    n = B.length ∧
    c'.prev.length + 1 = max 1 ((B.length + g.clusterSize - 1) / g.clusterSize) ∧
    ∃ c2, writeTo g dev' c' fuel2 =
      some (B ++ List.replicate ((c'.prev.length + 1) * g.clusterSize - B.length) 0, c2) := by
  have hcs0 : ChainState g (newChain s) dev [s] := by
    refine ⟨rfl, ?_, hEOF, ?_, List.nodup_singleton s⟩
    · intro i hi
      simp only [List.length_singleton] at hi
      omega
    · intro q hq
      rw [List.mem_singleton] at hq
      subst hq
      exact ⟨hs2, hsN⟩
  replace h : readFromLoop g (newChain s, dev) B false fuel1 = some (n, c', dev') := by
    rw [show readFrom g (newChain s, dev) B fuel1 =
        readFromLoop g (newChain s, dev) B false fuel1 from by
      show (match seek g dev (newChain s) 0 2 with
        | (.ok _, c1) => readFromLoop g (c1, dev) B false fuel1
        | _ => none) = _
      rw [seek_end_at_end g dev (newChain s) hEOF]] at h
    exact h
  obtain ⟨hn, A, hcsA, hlenA, hleA, hdataA⟩ :=
    readFromLoop_first g hWF fuel1 B (newChain s) dev hcs0 hzero hfuel1 n c' dev' h
  have hplen : c'.prev.length + 1 = ((newChain s).cluster :: A).length :=
    (chainState_len g c' dev' _ hcsA).symm
  refine ⟨hn, ?_, ?_⟩
  · rw [hplen]
    exact hlenA
  · obtain ⟨c2, hw⟩ := writeTo_spec g dev' c' ((newChain s).cluster :: A) fuel2 hWF hcsA
      (by rw [← hplen]; exact hfuel2)
    refine ⟨c2, ?_⟩
    rw [hw, hdataA, hplen]

set_option maxRecDepth 100000 in
/-- Witness for C7: on the one-FAT geometry `gOne` with cluster 2 marked
end-of-chain and zeroed, reading the three bytes `[1, 2, 3]` into a fresh chain
on cluster 2 consumes all three bytes, keeps the chain at one cluster, and a
subsequent `WriteTo` emits one whole 512-byte cluster: `[1, 2, 3]` followed by
509 zeroes. -/
theorem C7_witness :
    3 = List.length [1, 2, 3] ∧
    (newChain 2).prev.length + 1 =
      max 1 ((List.length [1, 2, 3] + gOne.clusterSize - 1) / gOne.clusterSize) ∧
    ∃ c2, writeTo gOne
        (writeClusterDev gOne devEnd2 2
          (List.take (min gOne.clusterSize (List.length [1, 2, 3])) [1, 2, 3] ++
            List.replicate (gOne.clusterSize - min gOne.clusterSize (List.length [1, 2, 3])) 0))
        (newChain 2) 3 =
      some ([1, 2, 3] ++
        List.replicate
          (((newChain 2).prev.length + 1) * gOne.clusterSize - List.length [1, 2, 3]) 0,
        c2) :=
  C7_readFrom_writeTo gOne devEnd2 2 [1, 2, 3] 4 3 3 (newChain 2)
    (writeClusterDev gOne devEnd2 2
      (List.take (min gOne.clusterSize (List.length [1, 2, 3])) [1, 2, 3] ++
        List.replicate (gOne.clusterSize - min gOne.clusterSize (List.length [1, 2, 3])) 0))
    ⟨by decide, by decide, by decide, by decide⟩ (by decide) (by decide) (by decide)
    (by decide) (by decide) (by decide) (by rfl)

end FatFS
